import Mathlib

/-!
# Verification of the theme-scraper pipeline

Shallow embedding of `theme-scraper.py`: the checkpoint manager, the GitHub
discovery stream, the rate limiter, the classifier fallback and the
orchestrating agent (`ThemeScraperAgent.run` / `_process_batch`).

External effects (HTTP search pages, per-repository content fetches, the
remote LLM classifier, database write success) are supplied as oracle
functions; every control-flow decision of the Python source is reproduced.
Presentation-only record fields that no control-flow decision reads
(`file_preview`, `main_file`, `has_demo`, quality scores, timestamps) are
projected away.
-/

namespace ThemeScraper

/-! ## Data model

`Repo` is the `repo_info` dict built by `GitHubFetcher.discover_repos_stream`
(the fields a claim mentions).  `FileD` is one element of the repository
`contents` listing.  `Entry` is the dict as it evolves inside
`ThemeScraperAgent._process_batch`; Python keys that may be absent are
`Option` fields (`none` = key missing). -/

structure Repo where
  full_name : String
  repo_name : String
  description : String
  stars : Nat
  deriving DecidableEq, Repr

structure FileD where
  name : String
  deriving DecidableEq, Repr

/-- Result dict of `ThemeAnalyzer._heuristic_categorize`, and also the shape
of one parsed JSON object consumed in `ai_categorize_batch`. -/
structure CatResult where
  category : String
  ai_description : String
  ai_features : List String
  ai_use_case : String
  deriving DecidableEq, Repr

/-- Result dict of `ThemeAnalyzer.analyze_files` (fields read later). -/
structure Analysis where
  error : String
  file_type : String
  tech_stack : List String
  features : List String
  is_valid : Bool
  keywords : List String
  deriving DecidableEq, Repr

structure Entry where
  full_name : String
  repo_name : String
  description : String
  stars : Nat
  files : Option (List FileD)
  processing_errors : Option String
  processing_status : Option String
  error_key : Option String
  is_valid : Option Bool
  file_type : Option String
  tech_stack : List String
  features : List String
  keywords : List String
  category : Option String
  ai_description : Option String
  ai_features : List String
  ai_use_case : Option String
  deriving DecidableEq, Repr

/-- The fresh dict for a repo as yielded by discovery (no optional keys yet). -/
def entryOfRepo (r : Repo) : Entry :=
  { full_name := r.full_name
    repo_name := r.repo_name
    description := r.description
    stars := r.stars
    files := none
    processing_errors := none
    processing_status := none
    error_key := none
    is_valid := none
    file_type := none
    tech_stack := []
    features := []
    keywords := []
    category := none
    ai_description := none
    ai_features := []
    ai_use_case := none }

/-! ## Classifier (`ThemeAnalyzer`) -/

/-- Python's substring test `kw in text`. -/
def strContains (text kw : String) : Bool :=
  decide (List.IsInfix kw.toList text.toList)

/-- Python's `str.lower()`, modelled characterwise. -/
def lowerString (s : String) : String :=
  String.mk (s.data.map Char.toLower)

/-- Python's `' '.join(xs)`. -/
def joinSpace (xs : List String) : String :=
  String.mk (List.intercalate [' '] (xs.map String.data))

/-- Python's `str.replace(a, b)` for a single-character pattern (the only
use in the source is `cat.replace('_', ' ')`). -/
def replaceChar (s : String) (a b : Char) : String :=
  String.mk (s.data.map (fun c => if c = a then b else c))

/-- One word under Python's `str.title()`: first character upper-cased, the
rest lower-cased. -/
def capitalizeWord : List Char → List Char
  | [] => []
  | c :: cs => c.toUpper :: cs.map Char.toLower

/-- Python's `str.title()` on space-separated words. -/
def pyTitle (s : String) : String :=
  String.mk (List.intercalate [' '] ((s.data.splitOn ' ').map capitalizeWord))

/-- The dict `Config.HEURISTIC_RULES`, in source (insertion) order. -/
def HEURISTIC_RULES : List (String × List String) :=
  [ ("jsonresume_theme", ["jsonresume-theme", "resume.json", "json resume theme"])
  , ("mermaid_theme", ["mermaid theme", "mermaid config", "mermaid.config"])
  , ("chartjs_plugin", ["chartjs-plugin", "chart.js plugin"])
  , ("chartjs_example", ["chart.js example", "chartjs demo", "chartjs sample"])
  , ("react_flow_example", ["react-flow", "reactflow", "react flow example"])
  , ("d3_visualization", ["d3 visualization", "d3.js viz", "d3 chart", "d3 graph"])
  , ("d3_chart_library", ["billboard.js", "britecharts", "plottable", "dc.js"])
  , ("recharts_example", ["recharts", "recharts example"])
  , ("document_template", ["resume template", "cv template", "document template"])
  , ("infographic_template", ["infographic", "data visualization template"])
  , ("portfolio_template", ["portfolio", "personal website template"]) ]

/-- The text assembled at the top of `_heuristic_categorize`:
`(description + ' ' + ' '.join(keywords) + ' ' + file_type + ' ' +
' '.join(tech_stack)).lower()` with `entry.get` defaults. -/
def heuristicText (e : Entry) : String :=
  lowerString (e.description ++ " " ++ joinSpace e.keywords ++ " " ++
    (e.file_type.getD "") ++ " " ++ joinSpace e.tech_stack)

/-- Model of `ThemeAnalyzer._heuristic_categorize`: first matching rule wins, with the
fixed fallback dict.  Total by construction — the Python body can raise no
exception. -/
def heuristic_categorize (e : Entry) : CatResult :=
  let text := heuristicText e
  match HEURISTIC_RULES.find? (fun rule => rule.2.any (fun kw => strContains text kw)) with
  | some (cat, kws) =>
      { category := cat
        ai_description := "Heuristic: " ++ pyTitle (replaceChar cat '_' ' ')
        ai_features := kws.take 5
        ai_use_case := "Use for " ++ replaceChar cat '_' ' ' }
  | none =>
      { category := "other"
        ai_description := "General web theme"
        ai_features := []
        ai_use_case := "General purpose" }

/-- Python `entry.update({category..ai_use_case})` — in-place update of an entry dict
with a categorization dict. -/
def applyCat (e : Entry) (c : CatResult) : Entry :=
  { e with
    category := some c.category
    ai_description := some c.ai_description
    ai_features := c.ai_features
    ai_use_case := some c.ai_use_case }

/-- A value of the list returned by `ai_categorize_batch`.  The success path
returns the (updated) entry dicts; the two fallback paths return the *bare*
`_heuristic_categorize` result dicts, which carry none of the entry's own
keys (in particular no `full_name`).  `bare` also records a
`processing_status` key, which `_process_batch` later writes into whatever
dict it holds. -/
inductive Row where
  | entry (e : Entry)
  | bare (c : CatResult) (status : Option String)
  deriving DecidableEq, Repr

/-- The `for entry, result in zip(entries, results)` loop of
`ai_categorize_batch`: a truthy parsed object is applied via `entry.update`,
a falsy one falls back to `entry.update(_heuristic_categorize(entry))`;
`zip` stops at the shorter list, leaving trailing entries untouched. -/
def zipCategorize : List Entry → List (Option CatResult) → List Row
  | [], _ => []
  | es, [] => es.map Row.entry
  | e :: es, some r :: rs => Row.entry (applyCat e r) :: zipCategorize es rs
  | e :: es, none :: rs =>
      Row.entry (applyCat e (heuristic_categorize e)) :: zipCategorize es rs

/-- Model of `ThemeAnalyzer.ai_categorize_batch`.  `remote` is the oracle for the
composite `minimax.chat_completion` + `_extract_json` step: `.error` models
an exception anywhere inside the `try`, `.ok rs` the parsed JSON objects
(`none` = a parsed but falsy object; `_extract_json` returns however many
blocks the regex finds, so `rs` need not match `entries` in length). -/
def ai_categorize_batch (use_ai : Bool) (remote : Except Unit (List (Option CatResult)))
    (entries : List Entry) : List Row :=
  if use_ai = false then
    entries.map (fun e => Row.bare (heuristic_categorize e) none)
  else
    match remote with
    | .error _ => entries.map (fun e => Row.bare (heuristic_categorize e) none)
    | .ok rs => zipCategorize entries rs

/-! ## Checkpoint manager (`CheckpointManager`) -/

/-- The in-memory checkpoint state threaded through `ThemeScraperAgent.run`
(the tuple returned by `CheckpointManager.load`). -/
structure CheckpointState where
  processed : Finset String
  start_pages : List (String × Nat)
  query_idx : Nat
  queries_used : List (String × Nat)
  deriving DecidableEq

/-- The JSON object written by `CheckpointManager.save`: the processed *set*
is serialized as an ordered list via `list(processed)`; dicts round-trip
as-is. -/
structure SavedCheckpoint where
  processed : List String
  total_new : Nat
  queries_used : List (String × Nat)
  start_pages : List (String × Nat)
  query_idx : Nat
  deriving DecidableEq

namespace CheckpointManager

/-- Model of `CheckpointManager.save` (the data it serializes on the success path).
`list(processed)` enumerates the set in some implementation order; the model
fixes that order to the sorted one, an ordered-list representation of the
set. -/
def save (processed : Finset String) (total_new : Nat)
    (queries_used : List (String × Nat)) (start_pages : List (String × Nat))
    (query_idx : Nat) : SavedCheckpoint :=
  { processed := processed.sort (· ≤ ·)
    total_new := total_new
    queries_used := queries_used
    start_pages := start_pages
    query_idx := query_idx }

/-- Model of `CheckpointManager.load`: `none` models a missing or corrupt file (both
fall back to the fresh empty state); otherwise the list is turned back into
a set via `set(data.get('processed', []))`. -/
def load (file : Option SavedCheckpoint) : CheckpointState :=
  match file with
  | none => { processed := ∅, start_pages := [], query_idx := 0, queries_used := [] }
  | some data =>
      { processed := data.processed.toFinset
        start_pages := data.start_pages
        query_idx := data.query_idx
        queries_used := data.queries_used }

end CheckpointManager

/-! ## Discovery (`GitHubFetcher.discover_repos_stream`)

`search query page` is the oracle for one `_fetch_json` call against the
search endpoint, already projected to the `repo_info` dicts built from
`data.get('items', [])` (a 404 or timeout yields `{}`, hence `[]`). -/

/-- The `while repos_fetched < max_repos` loop for one query: fetch a page,
break when it has no items, otherwise yield its items one by one until the
`max_repos` cap is hit mid-page, then advance to the next page.  Returns the
yielded items together with the final `repos_fetched` counter. -/
def pageLoop (search : String → Nat → List Repo) (query : String) (max_repos : Nat)
    (page fetched : Nat) : List Repo × Nat :=
  if h : fetched < max_repos then
    if hitems : (search query page).isEmpty then
      ([], fetched)
    else
      match pageLoop search query max_repos (page + 1)
          (fetched + ((search query page).take (max_repos - fetched)).length) with
      | (out, f) => ((search query page).take (max_repos - fetched) ++ out, f)
  else ([], fetched)
termination_by max_repos - fetched
decreasing_by
  have hne : search query page ≠ [] := by
    simpa [List.isEmpty_iff] using hitems
  have hlen : 0 < ((search query page).take (max_repos - fetched)).length := by
    rw [List.length_take]
    have := List.length_pos.mpr hne
    omega
  omega

/-- The `for query in queries` loop: the `repos_fetched` counter is carried
across queries, the page counter restarts at `start_page` for each query. -/
def queryFold (search : String → Nat → List Repo) (max_repos start_page : Nat) :
    List String → Nat → List Repo × Nat
  | [], fetched => ([], fetched)
  | q :: rest, fetched =>
    match pageLoop search q max_repos start_page fetched with
    | (out, f) =>
      match queryFold search max_repos start_page rest f with
      | (out2, f2) => (out ++ out2, f2)

/-- Model of `GitHubFetcher.discover_repos_stream`, as the list of all yielded
`repo_info` dicts in order. -/
def discover_repos_stream (search : String → Nat → List Repo) (queries : List String)
    (max_repos : Nat) (start_page : Nat) : List Repo :=
  (queryFold search max_repos start_page queries 0).1

/-! ## Rate limiter (`RateLimiter.check_and_wait`)

The mutable fields of `RateLimiter` plus the state of its (non-reentrant)
`asyncio.Lock`.  `probes_done` is model bookkeeping indexing the probe
oracle. -/

structure RLState where
  remaining : Nat
  reset_timestamp : Int
  poll_interval : Nat
  call_count : Nat
  locked : Bool
  probes_done : Nat
  deriving DecidableEq, Repr

/-- Result of one probe of `https://api.github.com/rate_limit`: `ok` is a 200
response carrying `core.remaining` / `core.reset`; `err` is any non-200
status or an exception (both leave the cached fields untouched and fall
through). -/
inductive ProbeRes where
  | ok (remaining : Nat) (reset : Int)
  | err
  deriving DecidableEq, Repr

/-- How one `check_and_wait` call ends.  `deadlock`: the call suspends on
acquiring `self.lock` while the same task already holds it — under asyncio
the lock is not reentrant, so that acquisition never completes.  `stuck` is
fuel exhaustion of the model interpreter only (never reached, see
`check_and_wait_fuel_irrelevant`). -/
inductive Outcome where
  | returns
  | deadlock
  | stuck
  deriving DecidableEq, Repr

/-- Observable trace of one `check_and_wait` call: how it ends, the total
seconds handed to `asyncio.sleep` before that, and how many probe requests
it issued. -/
structure CallTrace where
  outcome : Outcome
  slept : Nat
  probes : Nat
  deriving DecidableEq, Repr

/-- The computation `wait_sec = max(3600 - (int(time.time()) - self.reset_timestamp) + 60, 300)`. -/
def wait_sec (now reset : Int) : Int :=
  max (3600 - (now - reset) + 60) 300

/-- Model of `RateLimiter.check_and_wait`.  `probe` is the oracle for successive
probes of the rate-limit endpoint; `now` is the `int(time.time())` sample
used in the wait computation (a single sample suffices: execution never
reaches a second one, because the recursive call at the end of the low-budget
branch re-acquires the already-held lock and deadlocks first).  `fuel` bounds
the modelled recursion depth only. -/
def check_and_wait (probe : Nat → ProbeRes) (now : Int) :
    Nat → RLState → CallTrace × RLState
  | 0, st => (⟨.stuck, 0, 0⟩, st)
  | fuel + 1, st =>
    if st.locked then
      (⟨.deadlock, 0, 0⟩, st)
    else
      let st1 : RLState := { st with locked := true, call_count := st.call_count + 1 }
      if st1.call_count % st1.poll_interval ≠ 0 ∨ 100 < st1.remaining then
        (⟨.returns, 0, 0⟩, { st1 with locked := false })
      else
        match probe st1.probes_done with
        | .err =>
          (⟨.returns, 0, 1⟩, { st1 with locked := false, probes_done := st1.probes_done + 1 })
        | .ok rem reset =>
          let st2 : RLState :=
            { st1 with remaining := rem, reset_timestamp := reset,
                       probes_done := st1.probes_done + 1 }
          if rem < 50 then
            match check_and_wait probe now fuel st2 with
            | (tr, st3) =>
              (⟨tr.outcome, (wait_sec now reset).toNat + tr.slept, 1 + tr.probes⟩,
               if tr.outcome = .returns then { st3 with locked := false } else st3)
          else
            (⟨.returns, 0, 1⟩, { st2 with locked := false })

/-! ## Batch processing (`ThemeScraperAgent._process_batch`) -/

/-- Result of the per-repo contents fetch
(`self.fetcher._fetch_json(contents_url)` inside `fetch_repo_files`):
`list` is a 200 response whose JSON is an array; `notList` is a 200 response
with a non-array JSON or the `{}` produced for 404 / timeout; `failed` is an
exception escaping `_fetch_json` after its retries are exhausted (caught by
the `except` inside `fetch_repo_files`). -/
inductive FetchRes where
  | list (files : List FileD)
  | notList
  | failed
  deriving DecidableEq, Repr

/-- The inner `fetch_repo_files` coroutine of `_process_batch`: on an array
result the `files` key is set to the first 50 entries; on a non-array result
nothing is set; on an exception the dict gets a `processing_errors`
annotation and is returned anyway (never dropped). -/
def fetch_repo_files (fetch : String → FetchRes) (r : Repo) : Entry :=
  let e := entryOfRepo r
  match fetch r.full_name with
  | .list files => { e with files := some (files.take 50) }
  | .notList => e
  | .failed => { e with processing_errors := some "File fetch error" }

/-- The `# Analyze files` loop body of `_process_batch`: a truthy `files` key
is analyzed (`entry.update(analysis)`); otherwise the entry is annotated
`"; No files found"` with status `error_no_files`. -/
def analyzeStep (analyze : List FileD → Entry → Analysis) (e : Entry) : Entry :=
  match e.files with
  | some files =>
    if files.isEmpty then
      { e with processing_errors := some "; No files found"
               processing_status := some "error_no_files" }
    else
      let a := analyze files e
      { e with error_key := some a.error
               file_type := some a.file_type
               tech_stack := a.tech_stack
               features := a.features
               is_valid := some a.is_valid
               keywords := a.keywords }
  | none =>
      { e with processing_errors := some "; No files found"
               processing_status := some "error_no_files" }

/-- The `# Update status` loop of `_process_batch`: `entry.get('is_valid')`
truthiness decides between `scraped_valid` and `scraped_invalid` (a bare
categorization dict has no `is_valid` key, so it gets `scraped_invalid`). -/
def statusUpdate : Row → Row
  | .entry e =>
    if e.is_valid.getD false then .entry { e with processing_status := some "scraped_valid" }
    else .entry { e with processing_status := some "scraped_invalid" }
  | .bare c _ => .bare c (some "scraped_invalid")

/-- Reading `entry['full_name']` on a row: `none` models the `KeyError` a bare
categorization dict raises. -/
def rowName : Row → Option String
  | .entry e => some e.full_name
  | .bare _ _ => none

/-- The `themes` table, keyed by its `full_name TEXT UNIQUE` column. -/
abbrev Store := List Entry

/-- One `INSERT OR REPLACE` keyed on `full_name`. -/
def upsertOne (store : Store) (e : Entry) : Store :=
  if store.any (fun x => x.full_name == e.full_name) then
    store.map (fun x => if x.full_name == e.full_name then e else x)
  else store ++ [e]

/-- Model of `DatabaseManager.batch_insert_or_update`: empty input returns
immediately; otherwise the whole batch is one transaction — any failure
(`dbOk = false` models a SQLite error, a bare row models the
`entry['full_name']` `KeyError` in the tuple construction) rolls back and
raises `DatabaseError`, leaving the store unchanged. -/
def batch_insert_or_update (dbOk : Bool) (store : Store) (rows : List Row) :
    Except Unit Store :=
  if rows.isEmpty then .ok store
  else if rows.all (fun r => (rowName r).isSome) && dbOk then
    .ok (rows.foldl
      (fun s r => match r with | .entry e => upsertOne s e | .bare _ _ => s) store)
  else .error ()

/-- The `# Update processed set` loop of `_process_batch`: ids not yet in
the set are added and counted (`entry['full_name']` on a bare dict raises). -/
def markProcessed : List Row → Finset String → Nat → Except Unit (Finset String × Nat)
  | [], s, n => .ok (s, n)
  | .bare _ _ :: _, _, _ => .error ()
  | .entry e :: rest, s, n =>
    if e.full_name ∈ s then markProcessed rest s n
    else markProcessed rest (insert e.full_name s) (n + 1)

/-- Everything `_process_batch` produced on its success path. -/
structure PBOut where
  classIn : List Entry
  rows : List Row
  store : Store
  processed : Finset String
  new_count : Nat

/-- Model of `ThemeScraperAgent._process_batch`.  `remote` / `dbOk` are this call's
classifier and database oracles.  `.error` models an exception propagating
to the caller (the store rolled back, the processed set and the counter
untouched). -/
def process_batch (fetch : String → FetchRes) (analyze : List FileD → Entry → Analysis)
    (use_ai : Bool) (remote : Except Unit (List (Option CatResult))) (dbOk : Bool)
    (batch : List Repo) (processed : Finset String) (store : Store) :
    Except Unit PBOut :=
  let entries := batch.map (fetch_repo_files fetch)
  let analyzed := entries.map (analyzeStep analyze)
  let rows :=
    if use_ai then ai_categorize_batch true remote analyzed
    else analyzed.map (fun e => Row.entry (applyCat e (heuristic_categorize e)))
  let rows := rows.map statusUpdate
  match batch_insert_or_update dbOk store rows with
  | .error _ => .error ()
  | .ok store2 =>
    match markProcessed rows processed 0 with
    | .error _ => .error ()
    | .ok (processed2, n) =>
      .ok { classIn := analyzed, rows := rows, store := store2,
            processed := processed2, new_count := n }

/-! ## The agent loop (`ThemeScraperAgent.run`) -/

/-- All external behaviour a run can observe.  `remote` and `dbOk` are
indexed by the `_process_batch` call number; `shutdown_at = some t` makes
the cooperative `shutdown_flag` read true from the `t`-th flag check on
(the signal handler only ever sets the flag, so it is monotone). -/
structure Oracles where
  search : String → Nat → List Repo
  fetch : String → FetchRes
  analyze : List FileD → Entry → Analysis
  use_ai : Bool
  remote : Nat → Except Unit (List (Option CatResult))
  dbOk : Nat → Bool
  shutdown_at : Option Nat

/-- Mutable state of one `run`, plus the traces the claims talk about:
`batches` records the argument of every `_process_batch` call, `pb_results`
whether each of those calls returned or raised, `accepted` every candidate
ever appended to a batch. -/
structure RunSt where
  processed : Finset String
  total_new : Nat
  store : Store
  mid_saves : List SavedCheckpoint
  batches : List (List Repo)
  pb_results : List Bool
  accepted : List Repo
  flag_checks : Nat

/-- One read of `self.shutdown_flag`. -/
def checkFlag (o : Oracles) (st : RunSt) : Bool × RunSt :=
  ((match o.shutdown_at with
    | none => false
    | some t => decide (t ≤ st.flag_checks)),
   { st with flag_checks := st.flag_checks + 1 })

/-- The call `await self._process_batch(batch, processed)` with this call's oracles;
an exception propagates (`.error`), carrying the unchanged pipeline state. -/
def runProcessBatch (o : Oracles) (batch : List Repo) (st : RunSt) :
    Except RunSt (Nat × RunSt) :=
  let idx := st.batches.length
  match process_batch o.fetch o.analyze o.use_ai (o.remote idx) (o.dbOk idx)
      batch st.processed st.store with
  | .error _ =>
    .error { st with batches := st.batches ++ [batch],
                     pb_results := st.pb_results ++ [false] }
  | .ok out =>
    .ok (out.new_count,
      { st with processed := out.processed, store := out.store,
                batches := st.batches ++ [batch],
                pb_results := st.pb_results ++ [true] })

/-- Python `start_pages.get(query, 1)`. -/
def startPage (sp : List (String × Nat)) (q : String) : Nat :=
  match sp.find? (fun kv => kv.1 == q) with
  | some kv => kv.2
  | none => 1

/-- The `async for repo_info in stream` loop of `run`: check the shutdown
flag (break keeps the accumulated batch for the caller), skip ids already in
the processed set, accumulate, and at `BATCH_SIZE` process the batch, add
its count, and save a mid-run checkpoint. -/
def candLoop (o : Oracles) (batch_size : Nat) (start_pages queries_used : List (String × Nat))
    (q_idx : Nat) : List Repo → List Repo → RunSt → Except RunSt (List Repo × RunSt)
  | [], batch, st => .ok (batch, st)
  | c :: rest, batch, st =>
    if (checkFlag o st).1 then .ok (batch, (checkFlag o st).2)
    else
      let st1 := (checkFlag o st).2
      if c.full_name ∈ st1.processed then
        candLoop o batch_size start_pages queries_used q_idx rest batch st1
      else
        let batch2 := batch ++ [c]
        let st2 := { st1 with accepted := st1.accepted ++ [c] }
        if batch_size ≤ batch2.length then
          match runProcessBatch o batch2 st2 with
          | .error st => .error st
          | .ok (n, st) =>
            let st3 := { st with total_new := st.total_new + n }
            let st4 := { st3 with mid_saves := st3.mid_saves ++
              [CheckpointManager.save st3.processed st3.total_new queries_used start_pages q_idx] }
            candLoop o batch_size start_pages queries_used q_idx rest [] st4
        else
          candLoop o batch_size start_pages queries_used q_idx rest batch2 st2

/-- The `for q_idx in range(query_idx, len(queries))` loop of `run`: check
the shutdown flag, discover this query's candidates, run the candidate loop,
then process the trailing partial batch (no mid-run checkpoint for it). -/
def queryLoop (o : Oracles) (batch_size max_per : Nat)
    (start_pages queries_used : List (String × Nat)) :
    List String → Nat → RunSt → Except RunSt RunSt
  | [], _, st => .ok st
  | q :: rest, q_idx, st =>
    if (checkFlag o st).1 then .ok (checkFlag o st).2
    else
      let st1 := (checkFlag o st).2
      let cands := discover_repos_stream o.search [q] max_per (startPage start_pages q)
      match candLoop o batch_size start_pages queries_used q_idx cands [] st1 with
      | .error st => .error st
      | .ok (batch, st) =>
        if batch.isEmpty then
          queryLoop o batch_size max_per start_pages queries_used rest (q_idx + 1) st
        else
          match runProcessBatch o batch st with
          | .error st => .error st
          | .ok (n, st) =>
            queryLoop o batch_size max_per start_pages queries_used rest (q_idx + 1)
              { st with total_new := st.total_new + n }

/-- What a finished `run` left behind.  `aborted` records that an exception
reached the `except Exception` handler of `run` (logged as `Run error`); the
`finally` block saves a checkpoint either way. -/
structure RunResult where
  st : RunSt
  final_save : SavedCheckpoint
  aborted : Bool

/-- Model of `ThemeScraperAgent.run`: start from the loaded (or fresh) checkpoint
state, walk the configured queries from the saved index with a per-query
budget of `max_repos // len(queries)`, and in `finally` save a checkpoint
with `query_idx = len(queries)`.  `start_pages` is never mutated by the
source, so it is saved as loaded. -/
def run (o : Oracles) (batch_size max_repos : Nat) (loaded : CheckpointState)
    (queries : List String) : RunResult :=
  let st0 : RunSt :=
    { processed := loaded.processed, total_new := 0, store := [], mid_saves := [],
      batches := [], pb_results := [], accepted := [], flag_checks := 0 }
  let max_per := max_repos / queries.length
  match queryLoop o batch_size max_per loaded.start_pages loaded.queries_used
      (queries.drop loaded.query_idx) loaded.query_idx st0 with
  | .ok st =>
    ⟨st, CheckpointManager.save st.processed st.total_new loaded.queries_used
      loaded.start_pages queries.length, false⟩
  | .error st =>
    ⟨st, CheckpointManager.save st.processed st.total_new loaded.queries_used
      loaded.start_pages queries.length, true⟩

/-! ## Concrete fixtures used by witnesses and counterexamples -/

def repoXY : Repo := ⟨"x/y", "y", "", 50⟩

def repoAB : Repo := ⟨"a/b", "b", "", 30⟩

def repoR1 : Repo := ⟨"o/r1", "r1", "", 5⟩

def repoR2 : Repo := ⟨"o/r2", "r2", "", 3⟩

/-- A trivial `analyze_files` oracle. -/
def analyzeTriv : List FileD → Entry → Analysis := fun _ _ => ⟨"", "general", [], [], true, []⟩

/-! ## C2 — checkpoint round-trip -/

/-- C2: for every checkpoint state, `CheckpointManager.save` followed by
`CheckpointManager.load` returns the same processed set (the serialized
ordered list is turned back into a set) and the same per-query page cursors
(and query index and queries-used mapping). -/
theorem claim_C2_checkpoint_roundtrip (st : CheckpointState) (total_new : Nat) :
    CheckpointManager.load (some (CheckpointManager.save st.processed total_new
      st.queries_used st.start_pages st.query_idx)) = st := by
  cases st with
  | mk p sp qi qu =>
    simp [CheckpointManager.load, CheckpointManager.save, Finset.sort_toFinset]

/-! ## C6 / C7 — the rate limiter's low-budget path -/

/-- The quota source of the failing input: `remaining = 0`, `reset = now+1s`
(with `now = 1000`). -/
def probeLow : Nat → ProbeRes := fun _ => ProbeRes.ok 0 1001

/-- A limiter state on which the probe triggers: the incoming call is the
5th (`call_count` becomes 5, `poll_interval` is 5) and the cached remaining
count is not above 100. -/
def rlStateLow : RLState :=
  { remaining := 60, reset_timestamp := 0, poll_interval := 5, call_count := 4,
    locked := false, probes_done := 0 }

/-- Once one `check_and_wait` frame holds the non-reentrant lock, any nested
call suspends forever on acquiring it. -/
theorem check_and_wait_locked (probe : Nat → ProbeRes) (now : Int) (fuel : Nat)
    (st : RLState) (h : st.locked = true) :
    check_and_wait probe now (fuel + 1) st = (⟨.deadlock, 0, 0⟩, st) := by
  simp [check_and_wait, h]

/-- The model's fuel does not matter from depth 2 on: the recursive call of
the low-budget branch always finds the lock held and deadlocks at depth 1. -/
theorem check_and_wait_fuel_irrelevant (probe : Nat → ProbeRes) (now : Int)
    (n m : Nat) (st : RLState) :
    check_and_wait probe now (n + 2) st = check_and_wait probe now (m + 2) st := by
  by_cases h : st.locked = true
  · rw [check_and_wait_locked probe now (n + 1) st h,
        check_and_wait_locked probe now (m + 1) st h]
  · simp only [check_and_wait, h, Bool.false_eq_true, if_false]
    rcases hp : probe st.probes_done with _ | _ <;>
      simp [hp, check_and_wait_locked]

/-- C6: evaluating `check_and_wait` at the failing input.  The probe reports
`remaining = 0` (below the threshold 50); the code computes
`wait_sec = max(3600 - (now - reset) + 60, 300) = 3661`, sleeps, and then
re-invokes `check_and_wait` while still holding the non-reentrant
`asyncio.Lock` — that acquisition never completes, so the caller is never
released (the lock stays held), contradicting the claim that the call
returns once the budget is healthy again. -/
theorem claim_C6_rategate_deadlock :
    (check_and_wait probeLow 1000 10 rlStateLow).1
        = ⟨Outcome.deadlock, 3661, 1⟩ ∧
    (check_and_wait probeLow 1000 10 rlStateLow).2.locked = true := by
  exact ⟨rfl, rfl⟩

/-- C7: at the quota source `remaining = 0, reset = now + 1s`, the call that
triggers a probe issues exactly one probe request and sleeps 3661 seconds,
but its outcome is `deadlock`: it never returns at all, contradicting the
claim that it returns after at least one second. -/
theorem claim_C7_rategate_never_returns :
    (check_and_wait probeLow 1000 10 rlStateLow).1.outcome = Outcome.deadlock ∧
    (check_and_wait probeLow 1000 10 rlStateLow).1.probes = 1 ∧
    1 ≤ (check_and_wait probeLow 1000 10 rlStateLow).1.slept := by
  refine ⟨rfl, rfl, ?_⟩
  decide

/-! ## C8 — classifier fallback -/

theorem zipCategorize_length (es : List Entry) (rs : List (Option CatResult)) :
    (zipCategorize es rs).length = es.length := by
  induction es generalizing rs with
  | nil => cases rs <;> simp [zipCategorize]
  | cons e es ih =>
    cases rs with
    | nil => simp [zipCategorize]
    | cons r rs => cases r <;> simp [zipCategorize, ih]

theorem zipCategorize_nil (es : List Entry) :
    zipCategorize es [] = es.map Row.entry := by
  cases es <;> rfl

/-- C8 (amended): the classification step always returns a list of the same
length as its input and never raises; but the fallback is partial: on a
remote-classifier exception every input entry is *replaced* by its bare
heuristic categorization dict (the entry's own fields, including its
identifier, are dropped), and on remote output that parses to zero JSON
objects the entries are returned entirely unchanged — not heuristically
categorized. -/
theorem claim_C8_classifier_fallback_incomplete :
    (∀ (u : Bool) (rm : Except Unit (List (Option CatResult))) (es : List Entry),
      (ai_categorize_batch u rm es).length = es.length) ∧
    (∀ es : List Entry,
      ai_categorize_batch true (.error ()) es
        = es.map (fun e => Row.bare (heuristic_categorize e) none)) ∧
    (∀ es : List Entry,
      ai_categorize_batch true (.ok []) es = es.map Row.entry) := by
  refine ⟨?_, ?_, ?_⟩
  · intro u rm es
    cases u <;> [skip; cases rm] <;>
      simp [ai_categorize_batch, zipCategorize_length]
  · intro es
    simp [ai_categorize_batch]
  · intro es
    simp [ai_categorize_batch, zipCategorize_nil]

/-- An entry on which the heuristic would definitely act (it has no category
yet and the heuristic fallback would give it one). -/
def entryC8 : Entry := entryOfRepo ⟨"o/r", "r", "", 0⟩

/-- C8 counterexample: with the remote classifier enabled and returning
malformed output that parses to zero JSON objects (`_extract_json` yields
`[]`), `ai_categorize_batch` returns the entry *unchanged* — no category at
all — although the local heuristic classifier would have categorized it.
This refutes "on any remote-classifier failure (error or malformed output)
every entry is categorized by the local heuristic classifier". -/
theorem claim_C8_counterexample :
    ai_categorize_batch true (.ok []) [entryC8] = [Row.entry entryC8] ∧
    entryC8.category = none ∧
    (applyCat entryC8 (heuristic_categorize entryC8)).category = some "other" := by
  exact ⟨rfl, rfl, rfl⟩

/-! ## C5 — discovery pagination -/

/-- The page loop's counter comes back as the old counter plus the number of
yielded items, and it never yields more than the remaining budget. -/
theorem pageLoop_spec (search : String → Nat → List Repo) (query : String)
    (max_repos page fetched : Nat) :
    (pageLoop search query max_repos page fetched).2
        = fetched + (pageLoop search query max_repos page fetched).1.length ∧
    (pageLoop search query max_repos page fetched).1.length ≤ max_repos - fetched := by
  induction page, fetched using pageLoop.induct search query max_repos with
  | case1 page fetched h hitems =>
    rw [pageLoop]
    simp [h, hitems]
  | case2 page fetched h hitems out0 f0 heq ih =>
    rw [pageLoop, dif_pos h, dif_neg hitems, heq]
    rw [heq] at ih
    simp only at ih ⊢
    have htake : ((search query page).take (max_repos - fetched)).length
        ≤ max_repos - fetched := by
      rw [List.length_take]
      omega
    simp only [List.length_append]
    omega
  | case3 page fetched h =>
    rw [pageLoop]
    simp [h]

/-- A page with zero items terminates the per-query loop at once. -/
theorem pageLoop_empty_page (search : String → Nat → List Repo) (query : String)
    (max_repos page fetched : Nat) (h : fetched < max_repos)
    (hpage : search query page = []) :
    pageLoop search query max_repos page fetched = ([], fetched) := by
  rw [pageLoop]
  simp [h, hpage]

/-- When the current page holds at least the remaining budget, the loop
yields exactly the prefix filling the budget and stops mid-page. -/
theorem pageLoop_cap_stop (search : String → Nat → List Repo) (query : String)
    (max_repos page fetched : Nat) (h : fetched < max_repos)
    (hbig : max_repos - fetched ≤ (search query page).length) :
    pageLoop search query max_repos page fetched
      = ((search query page).take (max_repos - fetched), max_repos) := by
  have hne : ¬(search query page).isEmpty = true := by
    rw [List.isEmpty_iff]
    intro hnil
    rw [hnil] at hbig
    simp at hbig
    omega
  have hlen : ((search query page).take (max_repos - fetched)).length
      = max_repos - fetched := by
    simp [List.length_take]
    omega
  rw [pageLoop]
  simp only [h, hne, dif_pos, dite_false, if_false, dite_eq_ite, if_neg,
    not_false_eq_true, dite_true]
  rw [hlen]
  have hm : fetched + (max_repos - fetched) = max_repos := by omega
  rw [hm, pageLoop]
  simp

/-- The query fold also returns its counter as old-plus-yielded, bounded by
the budget. -/
theorem queryFold_spec (search : String → Nat → List Repo)
    (max_repos start_page : Nat) (queries : List String) (fetched : Nat) :
    (queryFold search max_repos start_page queries fetched).2
        = fetched + (queryFold search max_repos start_page queries fetched).1.length ∧
    (queryFold search max_repos start_page queries fetched).1.length
        ≤ max_repos - fetched := by
  induction queries generalizing fetched with
  | nil => simp [queryFold]
  | cons q rest ih =>
    rcases hp : pageLoop search q max_repos start_page fetched with ⟨out, f⟩
    have hps := pageLoop_spec search q max_repos start_page fetched
    rw [hp] at hps
    simp only at hps
    rcases hq : queryFold search max_repos start_page rest f with ⟨out2, f2⟩
    have ihf := ih f
    rw [hq] at ihf
    simp only at ihf
    simp only [queryFold, hp, hq, List.length_append]
    omega

/-- C5: (1) discovery yields at most the caller's `max_repos` budget over
all queries; (2) for any query, the page loop terminates as soon as a page
returns zero items; (3) once the cap is reached mid-page, the loop yields
exactly the prefix filling the budget and stops; (4) the spec scenario: with
page 1 returning `[A, B]` and page 2 empty, discovery yields exactly
`A, B` and terminates. -/
theorem claim_C5_discovery_termination_and_cap :
    (∀ (search : String → Nat → List Repo) (queries : List String) (m sp : Nat),
      (discover_repos_stream search queries m sp).length ≤ m) ∧
    (∀ (search : String → Nat → List Repo) (q : String) (m p f : Nat),
      f < m → search q p = [] → pageLoop search q m p f = ([], f)) ∧
    (∀ (search : String → Nat → List Repo) (q : String) (m p f : Nat),
      f < m → m - f ≤ (search q p).length →
      pageLoop search q m p f = ((search q p).take (m - f), m)) ∧
    (∀ A B : Repo,
      discover_repos_stream (fun _ p => if p = 1 then [A, B] else [])
          ["vue ui component stars:>10"] 10 1 = [A, B]) := by
  refine ⟨?_, ?_, ?_, ?_⟩
  · intro search queries m sp
    have h := (queryFold_spec search m sp queries 0).2
    simpa [discover_repos_stream] using h
  · intro search q m p f h hpage
    exact pageLoop_empty_page search q m p f h hpage
  · intro search q m p f h hbig
    exact pageLoop_cap_stop search q m p f h hbig
  · intro A B
    have h2 : pageLoop (fun _ p => if p = 1 then [A, B] else [])
        "vue ui component stars:>10" 10 2 2 = ([], 2) := by
      apply pageLoop_empty_page
      · omega
      · simp
    have h1 : pageLoop (fun _ p => if p = 1 then [A, B] else [])
        "vue ui component stars:>10" 10 1 0 = ([A, B], 2) := by
      rw [pageLoop]
      norm_num
      rw [h2]
      simp
    simp [discover_repos_stream, queryFold, h1]

/-- Witness for C5's hypothesis-bearing conjuncts, at concrete inputs. -/
theorem claim_C5_witness :
    ((0 : Nat) < 5 ∧
      pageLoop (fun _ _ => ([] : List Repo)) "q" 5 1 0 = ([], 0)) ∧
    ((3 : Nat) < 5 ∧ 5 - 3 ≤ [repoXY, repoAB].length ∧
      pageLoop (fun _ _ => [repoXY, repoAB]) "q" 5 1 3
        = ([repoXY, repoAB].take (5 - 3), 5)) := by
  refine ⟨⟨by decide, ?_⟩, by decide, by decide, ?_⟩
  · exact claim_C5_discovery_termination_and_cap.2.1
      (fun _ _ => []) "q" 5 1 0 (by decide) rfl
  · exact claim_C5_discovery_termination_and_cap.2.2.1
      (fun _ _ => [repoXY, repoAB]) "q" 5 1 3 (by decide) (by decide)

/-! ## Identifier preservation through the batch stages -/

theorem fetch_repo_files_full_name (fetch : String → FetchRes) (r : Repo) :
    (fetch_repo_files fetch r).full_name = r.full_name := by
  unfold fetch_repo_files
  cases fetch r.full_name <;> rfl

theorem analyzeStep_full_name (analyze : List FileD → Entry → Analysis) (e : Entry) :
    (analyzeStep analyze e).full_name = e.full_name := by
  unfold analyzeStep
  cases e.files with
  | none => rfl
  | some fs => by_cases h : fs.isEmpty <;> simp [h]

theorem applyCat_full_name (e : Entry) (c : CatResult) :
    (applyCat e c).full_name = e.full_name := rfl

theorem statusUpdate_rowName (r : Row) : rowName (statusUpdate r) = rowName r := by
  cases r with
  | entry e => by_cases h : e.is_valid.getD false <;> simp [statusUpdate, h, rowName]
  | bare c s => rfl

theorem map_entry_names (es : List Entry) :
    (es.map Row.entry).map rowName = es.map (fun e => some e.full_name) := by
  induction es with
  | nil => rfl
  | cons e es ih => simp [rowName, ih]

theorem zipCategorize_names (es : List Entry) (rs : List (Option CatResult)) :
    (zipCategorize es rs).map rowName = es.map (fun e => some e.full_name) := by
  induction es generalizing rs with
  | nil => cases rs <;> rfl
  | cons e es ih =>
    cases rs with
    | nil => rw [zipCategorize_nil, map_entry_names]
    | cons r rs => cases r <;> simp [zipCategorize, rowName, applyCat_full_name, ih]

theorem heuristic_rows_names (es : List Entry) :
    ((es.map (fun e => Row.entry (applyCat e (heuristic_categorize e)))).map rowName)
      = es.map (fun e => some e.full_name) := by
  induction es with
  | nil => rfl
  | cons e es ih => simp [rowName, applyCat_full_name, ih]

theorem statusUpdate_names (rows : List Row) :
    (rows.map statusUpdate).map rowName = rows.map rowName := by
  induction rows with
  | nil => rfl
  | cons r rows ih => simp [statusUpdate_rowName, ih]

/-! ## `markProcessed` -/

theorem markProcessed_superset (rows : List Row) (s : Finset String) (n : Nat)
    (s2 : Finset String) (n2 : Nat) (h : markProcessed rows s n = .ok (s2, n2)) :
    s ⊆ s2 := by
  induction rows generalizing s n with
  | nil =>
    simp [markProcessed] at h
    rw [h.1]
  | cons r rest ih =>
    cases r with
    | bare c st => simp [markProcessed] at h
    | entry e =>
      by_cases hm : e.full_name ∈ s
      · simp only [markProcessed, if_pos hm] at h
        exact ih s n h
      · simp only [markProcessed, if_neg hm] at h
        exact fun x hx => ih _ _ h (Finset.mem_insert_of_mem hx)

theorem markProcessed_ok (rows : List Row) (L : List String) (s : Finset String) (n : Nat)
    (hnames : rows.map rowName = L.map some) :
    markProcessed rows s n
      = .ok (s ∪ L.toFinset, n + ((s ∪ L.toFinset).card - s.card)) := by
  induction rows generalizing L s n with
  | nil =>
    have hL : L = [] := by cases L <;> simp_all
    subst hL
    simp [markProcessed]
  | cons r rest ih =>
    cases r with
    | bare c st =>
      exfalso
      cases L with
      | nil => simp at hnames
      | cons a L2 => simp [rowName] at hnames
    | entry e =>
      cases L with
      | nil => simp at hnames
      | cons a L2 =>
        simp only [List.map_cons, rowName, List.cons.injEq, Option.some.injEq] at hnames
        obtain ⟨ha, hrest⟩ := hnames
        subst ha
        by_cases hm : e.full_name ∈ s
        · simp only [markProcessed, if_pos hm]
          rw [ih L2 s n hrest]
          have hu : s ∪ (e.full_name :: L2).toFinset = s ∪ L2.toFinset := by
            rw [List.toFinset_cons, Finset.union_insert,
              Finset.insert_eq_self.mpr (Finset.mem_union_left _ hm)]
          rw [hu]
        · simp only [markProcessed, if_neg hm]
          rw [ih L2 (insert e.full_name s) (n + 1) hrest]
          have hu : insert e.full_name s ∪ L2.toFinset
              = s ∪ (e.full_name :: L2).toFinset := by
            rw [List.toFinset_cons, Finset.union_insert, Finset.insert_union]
          rw [hu]
          have hcard : (insert e.full_name s).card = s.card + 1 :=
            Finset.card_insert_of_not_mem hm
          have hsub : insert e.full_name s ⊆ s ∪ (e.full_name :: L2).toFinset := by
            rw [List.toFinset_cons, Finset.union_insert]
            exact Finset.insert_subset_insert _ Finset.subset_union_left
          have hle := Finset.card_le_card hsub
      -- the remaining difference is pure arithmetic on the cardinalities
          have : n + 1 + ((s ∪ (e.full_name :: L2).toFinset).card - (insert e.full_name s).card)
              = n + ((s ∪ (e.full_name :: L2).toFinset).card - s.card) := by omega
          rw [this]

theorem markProcessed_count (rows : List Row) (L : List String) (s : Finset String)
    (hnames : rows.map rowName = L.map some) :
    markProcessed rows s 0 = .ok (s ∪ L.toFinset, (L.toFinset \ s).card) := by
  rw [markProcessed_ok rows L s 0 hnames]
  have h1 := Finset.card_sdiff_add_card L.toFinset s
  have h2 : L.toFinset ∪ s = s ∪ L.toFinset := Finset.union_comm _ _
  rw [h2] at h1
  have h3 : s.card ≤ (s ∪ L.toFinset).card :=
    Finset.card_le_card Finset.subset_union_left
  have : (s ∪ L.toFinset).card - s.card = (L.toFinset \ s).card := by omega
  rw [Nat.zero_add, this]

theorem markProcessed_allSome (rows : List Row) (s : Finset String) (n : Nat)
    (out : Finset String × Nat) (h : markProcessed rows s n = .ok out) :
    ∃ L : List String, rows.map rowName = L.map some := by
  induction rows generalizing s n with
  | nil => exact ⟨[], rfl⟩
  | cons r rest ih =>
    cases r with
    | bare c st => simp [markProcessed] at h
    | entry e =>
      by_cases hm : e.full_name ∈ s
      · simp only [markProcessed, if_pos hm] at h
        obtain ⟨L, hL⟩ := ih s n h
        exact ⟨e.full_name :: L, by simp [rowName, hL]⟩
      · simp only [markProcessed, if_neg hm] at h
        obtain ⟨L, hL⟩ := ih _ _ h
        exact ⟨e.full_name :: L, by simp [rowName, hL]⟩

/-! ## The store -/

/-- The predicate "a record with this identifier exists in the `themes` table". -/
def storeHasName (store : Store) (n : String) : Prop :=
  ∃ e ∈ store, e.full_name = n

theorem upsertOne_hasName_mono (store : Store) (e : Entry) (n : String)
    (h : storeHasName store n) : storeHasName (upsertOne store e) n := by
  obtain ⟨x, hx, hxn⟩ := h
  unfold upsertOne
  by_cases hany : store.any (fun y => y.full_name == e.full_name)
  · rw [if_pos hany]
    refine ⟨if x.full_name == e.full_name then e else x,
      List.mem_map_of_mem _ hx, ?_⟩
    by_cases hxe : x.full_name == e.full_name
    · rw [if_pos hxe]
      rw [← hxn]
      exact (eq_of_beq hxe).symm
    · rw [if_neg hxe]
      exact hxn
  · rw [if_neg hany]
    exact ⟨x, List.mem_append_left _ hx, hxn⟩

theorem upsertOne_hasName_self (store : Store) (e : Entry) :
    storeHasName (upsertOne store e) e.full_name := by
  unfold upsertOne
  by_cases hany : store.any (fun y => y.full_name == e.full_name)
  · rw [if_pos hany]
    rw [List.any_eq_true] at hany
    obtain ⟨x, hx, hbeq⟩ := hany
    refine ⟨e, ?_, rfl⟩
    have := List.mem_map_of_mem (fun y => if y.full_name == e.full_name then e else y) hx
    simpa [hbeq] using this
  · rw [if_neg hany]
    exact ⟨e, List.mem_append_right _ (List.mem_singleton_self e), rfl⟩

/-- The transaction body of `batch_insert_or_update` as a fold. -/
def upsertRows (store : Store) (rows : List Row) : Store :=
  rows.foldl (fun s r => match r with | .entry e => upsertOne s e | .bare _ _ => s) store

theorem upsertRows_mono (rows : List Row) (store : Store) (n : String)
    (h : storeHasName store n) : storeHasName (upsertRows store rows) n := by
  induction rows generalizing store with
  | nil => exact h
  | cons r rest ih =>
    cases r with
    | entry e => exact ih _ (upsertOne_hasName_mono store e n h)
    | bare c st => exact ih _ h

theorem upsertRows_has (rows : List Row) (store : Store) (n : String)
    (hn : some n ∈ rows.map rowName) : storeHasName (upsertRows store rows) n := by
  induction rows generalizing store with
  | nil => simp at hn
  | cons r rest ih =>
    simp only [List.map_cons, List.mem_cons] at hn
    cases r with
    | entry e =>
      rcases hn with hhead | htail
      · have he : e.full_name = n := by
          simpa [rowName] using hhead.symm
        subst he
        exact upsertRows_mono rest _ _ (upsertOne_hasName_self store e)
      · exact ih _ htail
    | bare c st =>
      rcases hn with hhead | htail
      · simp [rowName] at hhead
      · exact ih _ htail

theorem batch_insert_ok (rows : List Row) (store : Store)
    (hall : rows.all (fun r => (rowName r).isSome)) :
    batch_insert_or_update true store rows = .ok (upsertRows store rows) := by
  unfold batch_insert_or_update
  by_cases hempty : rows.isEmpty
  · have : rows = [] := List.isEmpty_iff.mp hempty
    subst this
    simp [upsertRows]
  · simp [hempty, hall, upsertRows]

/-! ## The success path of `_process_batch` -/

theorem allSome_of_names (rows : List Row) (L : List String)
    (h : rows.map rowName = L.map some) :
    rows.all (fun r => (rowName r).isSome) = true := by
  induction rows generalizing L with
  | nil => rfl
  | cons r rest ih =>
    cases L with
    | nil => simp at h
    | cons a L2 =>
      simp only [List.map_cons, List.cons.injEq] at h
      simp [List.all_cons, h.1, ih L2 h.2]

theorem analyzed_names (fetch : String → FetchRes)
    (analyze : List FileD → Entry → Analysis) (batch : List Repo) :
    ((batch.map (fetch_repo_files fetch)).map (analyzeStep analyze)).map
        (fun e => some e.full_name)
      = batch.map (fun r => some r.full_name) := by
  simp [List.map_map, Function.comp, analyzeStep_full_name, fetch_repo_files_full_name]

/-- Everything that holds of `_process_batch` when its database call
succeeds and the classification step keeps the entry dicts (no remote
exception): it returns, every batch item reached the classification input
in order, every identifier reached the upsert payload, the processed set
became the union with the batch's identifiers, the returned counter is the
number of identifiers new to the set, and the store now has a record for
every batch item while keeping all identifiers it already had. -/
theorem process_batch_ok_strong (fetch : String → FetchRes)
    (analyze : List FileD → Entry → Analysis) (use_ai : Bool)
    (remote : Except Unit (List (Option CatResult)))
    (hcl : use_ai = false ∨ ∃ rs, remote = Except.ok rs)
    (batch : List Repo) (processed : Finset String) (store : Store) :
    ∃ out, process_batch fetch analyze use_ai remote true batch processed store
        = .ok out ∧
      out.classIn = (batch.map (fetch_repo_files fetch)).map (analyzeStep analyze) ∧
      out.rows.map rowName = batch.map (fun r => some r.full_name) ∧
      out.processed = processed ∪ (batch.map Repo.full_name).toFinset ∧
      out.new_count = ((batch.map Repo.full_name).toFinset \ processed).card ∧
      (∀ n, storeHasName store n → storeHasName out.store n) ∧
      (∀ r ∈ batch, storeHasName out.store r.full_name) := by
  have hbase : ((batch.map (fetch_repo_files fetch)).map (analyzeStep analyze)).map
      (fun e => some e.full_name) = batch.map (fun r => some r.full_name) :=
    analyzed_names fetch analyze batch
  have hnames : ((if use_ai then
        ai_categorize_batch true remote
          ((batch.map (fetch_repo_files fetch)).map (analyzeStep analyze))
      else
        ((batch.map (fetch_repo_files fetch)).map (analyzeStep analyze)).map
          (fun e => Row.entry (applyCat e (heuristic_categorize e)))).map
        statusUpdate).map rowName
      = batch.map (fun r => some r.full_name) := by
    rw [statusUpdate_names]
    rcases hcl with hfalse | ⟨rs, hok⟩
    · rw [hfalse]
      simp only [Bool.false_eq_true, if_false]
      rw [heuristic_rows_names]
      exact hbase
    · cases hua : use_ai
      · simp only [Bool.false_eq_true, if_false]
        rw [heuristic_rows_names]
        exact hbase
      · simp only [if_true]
        rw [hok]
        rw [show ai_categorize_batch true (Except.ok rs)
            ((batch.map (fetch_repo_files fetch)).map (analyzeStep analyze))
            = zipCategorize ((batch.map (fetch_repo_files fetch)).map (analyzeStep analyze)) rs
          from by simp [ai_categorize_batch]]
        rw [zipCategorize_names]
        exact hbase
  have hnames2 : ((if use_ai then
        ai_categorize_batch true remote
          ((batch.map (fetch_repo_files fetch)).map (analyzeStep analyze))
      else
        ((batch.map (fetch_repo_files fetch)).map (analyzeStep analyze)).map
          (fun e => Row.entry (applyCat e (heuristic_categorize e)))).map
        statusUpdate).map rowName
      = (batch.map Repo.full_name).map some := by
    rw [hnames]
    simp [List.map_map]
  have hall := allSome_of_names _ _ hnames2
  have hdb := batch_insert_ok _ store hall
  have hmark := markProcessed_count _ (batch.map Repo.full_name) processed hnames2
  have key : process_batch fetch analyze use_ai remote true batch processed store
      = .ok { classIn := (batch.map (fetch_repo_files fetch)).map (analyzeStep analyze)
              rows := (if use_ai then
                  ai_categorize_batch true remote
                    ((batch.map (fetch_repo_files fetch)).map (analyzeStep analyze))
                else
                  ((batch.map (fetch_repo_files fetch)).map (analyzeStep analyze)).map
                    (fun e => Row.entry (applyCat e (heuristic_categorize e)))).map
                  statusUpdate
              store := upsertRows store ((if use_ai then
                  ai_categorize_batch true remote
                    ((batch.map (fetch_repo_files fetch)).map (analyzeStep analyze))
                else
                  ((batch.map (fetch_repo_files fetch)).map (analyzeStep analyze)).map
                    (fun e => Row.entry (applyCat e (heuristic_categorize e)))).map
                  statusUpdate)
              processed := processed ∪ (batch.map Repo.full_name).toFinset
              new_count := ((batch.map Repo.full_name).toFinset \ processed).card } := by
    simp only [process_batch]
    rw [hdb, hmark]
  refine ⟨_, key, rfl, hnames, rfl, rfl, ?_, ?_⟩
  · intro n hn
    exact upsertRows_mono _ _ _ hn
  · intro r hr
    apply upsertRows_has
    rw [hnames]
    exact List.mem_map_of_mem _ hr

/-! ## C3 — forward-never-drop -/

/-- C3: every repo accepted into a batch reaches the classification input
and the upsert payload, and after a successful persist the store holds a
record with its identifier — even when its enrichment fetch failed after
exhausting its retries; in that case the enriched entry that is handed to
classification carries the error status `error_no_files` and the error
annotation `"; No files found"`.  (Hypotheses: the store write succeeds and
the classification step is not the remote-exception path, which are the
collaborator failure modes treated by C4 and C8.) -/
theorem claim_C3_forward_never_drop (fetch : String → FetchRes)
    (analyze : List FileD → Entry → Analysis) (use_ai : Bool)
    (remote : Except Unit (List (Option CatResult)))
    (hcl : use_ai = false ∨ ∃ rs, remote = Except.ok rs)
    (batch : List Repo) (processed : Finset String) (store : Store)
    (r : Repo) (hr : r ∈ batch) :
    ∃ out, process_batch fetch analyze use_ai remote true batch processed store
        = .ok out ∧
      analyzeStep analyze (fetch_repo_files fetch r) ∈ out.classIn ∧
      some r.full_name ∈ out.rows.map rowName ∧
      storeHasName out.store r.full_name ∧
      (fetch r.full_name = .failed →
        (analyzeStep analyze (fetch_repo_files fetch r)).processing_status
            = some "error_no_files" ∧
        (analyzeStep analyze (fetch_repo_files fetch r)).processing_errors
            = some "; No files found") := by
  obtain ⟨out, hok, hclass, hnames, _, _, _, hhas⟩ :=
    process_batch_ok_strong fetch analyze use_ai remote hcl batch processed store
  refine ⟨out, hok, ?_, ?_, hhas r hr, ?_⟩
  · rw [hclass]
    exact List.mem_map_of_mem _ (List.mem_map_of_mem _ hr)
  · rw [hnames]
    exact List.mem_map_of_mem _ hr
  · intro hf
    constructor <;> simp [fetch_repo_files, hf, analyzeStep, entryOfRepo]

/-- Witness for C3 at a concrete input: a one-item batch whose contents
fetch fails after its retries. -/
theorem claim_C3_witness :
    (false = false ∨ ∃ rs, (Except.ok [] : Except Unit (List (Option CatResult)))
        = Except.ok rs) ∧
    repoXY ∈ [repoXY] ∧
    (∃ out, process_batch (fun _ => FetchRes.failed) analyzeTriv false (Except.ok [])
        true [repoXY] ∅ [] = .ok out ∧
      analyzeStep analyzeTriv (fetch_repo_files (fun _ => FetchRes.failed) repoXY)
          ∈ out.classIn ∧
      some repoXY.full_name ∈ out.rows.map rowName ∧
      storeHasName out.store repoXY.full_name ∧
      ((fun _ => FetchRes.failed) repoXY.full_name = FetchRes.failed →
        (analyzeStep analyzeTriv
            (fetch_repo_files (fun _ => FetchRes.failed) repoXY)).processing_status
          = some "error_no_files" ∧
        (analyzeStep analyzeTriv
            (fetch_repo_files (fun _ => FetchRes.failed) repoXY)).processing_errors
          = some "; No files found")) :=
  ⟨Or.inl rfl, List.mem_singleton_self repoXY,
    claim_C3_forward_never_drop (fun _ => FetchRes.failed) analyzeTriv false
      (Except.ok []) (Or.inl rfl) [repoXY] ∅ [] repoXY (List.mem_singleton_self repoXY)⟩

/-! ## Inversion of a successful `_process_batch` (any oracles) -/

theorem rows_names_cases (fetch : String → FetchRes)
    (analyze : List FileD → Entry → Analysis) (use_ai : Bool)
    (remote : Except Unit (List (Option CatResult))) (batch : List Repo) :
    ((if use_ai then
        ai_categorize_batch true remote
          ((batch.map (fetch_repo_files fetch)).map (analyzeStep analyze))
      else
        ((batch.map (fetch_repo_files fetch)).map (analyzeStep analyze)).map
          (fun e => Row.entry (applyCat e (heuristic_categorize e)))).map
        statusUpdate).map rowName
        = batch.map (fun r => some r.full_name) ∨
    ((if use_ai then
        ai_categorize_batch true remote
          ((batch.map (fetch_repo_files fetch)).map (analyzeStep analyze))
      else
        ((batch.map (fetch_repo_files fetch)).map (analyzeStep analyze)).map
          (fun e => Row.entry (applyCat e (heuristic_categorize e)))).map
        statusUpdate).map rowName
        = batch.map (fun _ => (none : Option String)) := by
  have hbase := analyzed_names fetch analyze batch
  rw [statusUpdate_names]
  cases use_ai with
  | false =>
    left
    simp only [Bool.false_eq_true, if_false]
    rw [heuristic_rows_names]
    exact hbase
  | true =>
    simp only [if_true]
    cases remote with
    | ok rs =>
      left
      rw [show ai_categorize_batch true (Except.ok rs)
          ((batch.map (fetch_repo_files fetch)).map (analyzeStep analyze))
          = zipCategorize ((batch.map (fetch_repo_files fetch)).map (analyzeStep analyze)) rs
        from by simp [ai_categorize_batch]]
      rw [zipCategorize_names]
      exact hbase
    | error u =>
      right
      rw [show ai_categorize_batch true (Except.error u)
          ((batch.map (fetch_repo_files fetch)).map (analyzeStep analyze))
          = ((batch.map (fetch_repo_files fetch)).map (analyzeStep analyze)).map
              (fun e => Row.bare (heuristic_categorize e) none)
        from by simp [ai_categorize_batch]]
      simp only [List.map_map]
      clear hbase
      induction batch with
      | nil => rfl
      | cons b bs ih => simpa [rowName, Function.comp] using ih

/-- Whenever `_process_batch` returns (rather than raising), the processed
set it hands back is the old set united with the batch's identifiers, and
the returned counter is the number of those identifiers that were new. -/
theorem process_batch_ok_inv (fetch : String → FetchRes)
    (analyze : List FileD → Entry → Analysis) (use_ai : Bool)
    (remote : Except Unit (List (Option CatResult))) (dbOk : Bool)
    (batch : List Repo) (processed : Finset String) (store : Store) (out : PBOut)
    (h : process_batch fetch analyze use_ai remote dbOk batch processed store
        = .ok out) :
    out.processed = processed ∪ (batch.map Repo.full_name).toFinset ∧
    out.new_count = ((batch.map Repo.full_name).toFinset \ processed).card := by
  simp only [process_batch] at h
  set R := ((if use_ai then
      ai_categorize_batch true remote
        ((batch.map (fetch_repo_files fetch)).map (analyzeStep analyze))
    else
      ((batch.map (fetch_repo_files fetch)).map (analyzeStep analyze)).map
        (fun e => Row.entry (applyCat e (heuristic_categorize e)))).map
      statusUpdate) with hR
  rcases hdbeq : batch_insert_or_update dbOk store R with u | store2
  · rw [hdbeq] at h
    exact absurd h (by simp)
  · rw [hdbeq] at h
    rcases hmark : markProcessed R processed 0 with u | pr
    · rw [hmark] at h
      exact absurd h (by simp)
    · rcases pr with ⟨processed2, n⟩
      rw [hmark] at h
      simp only [Except.ok.injEq] at h
      subst h
      obtain ⟨L, hL⟩ := markProcessed_allSome _ _ _ _ hmark
      have hcases := rows_names_cases fetch analyze use_ai remote batch
      rw [← hR] at hcases
      rcases hcases with hgood | hbad
      · have hnames2 : R.map rowName = (batch.map Repo.full_name).map some := by
          rw [hgood]
          simp [List.map_map]
        rw [markProcessed_count R _ processed hnames2] at hmark
        simp only [Except.ok.injEq, Prod.mk.injEq] at hmark
        exact ⟨hmark.1.symm, hmark.2.symm⟩
      · rcases batch with _ | ⟨b, bs⟩
        · simp only [List.map_nil] at hbad
          have hnil : R = [] := List.map_eq_nil_iff.mp hbad
          rw [hnil] at hmark
          simp only [markProcessed, Except.ok.injEq, Prod.mk.injEq] at hmark
          simp only [List.map_nil, List.toFinset_nil, Finset.union_empty,
            Finset.empty_sdiff, Finset.card_empty]
          exact ⟨hmark.1.symm, hmark.2.symm⟩
        · exfalso
          rw [hL] at hbad
          cases L with
          | nil => simp at hbad
          | cons a L2 => simp at hbad

/-! ## Run-level invariants -/

/-- The pipeline state a candidate-loop call ends in (normally or by
propagating an exception). -/
def candOut : Except RunSt (List Repo × RunSt) → RunSt
  | .ok (_, st) => st
  | .error st => st

/-- The pipeline state a query-loop call ends in. -/
def loopOut : Except RunSt RunSt → RunSt
  | .ok st => st
  | .error st => st

theorem runProcessBatch_err_eq (o : Oracles) (batch : List Repo) (st st2 : RunSt)
    (h : runProcessBatch o batch st = .error st2) :
    st2.processed = st.processed ∧ st2.store = st.store ∧
    st2.accepted = st.accepted ∧ st2.batches = st.batches ++ [batch] ∧
    st2.pb_results = st.pb_results ++ [false] := by
  unfold runProcessBatch at h
  simp only [] at h
  rcases hpb : process_batch o.fetch o.analyze o.use_ai (o.remote st.batches.length)
      (o.dbOk st.batches.length) batch st.processed st.store with u | out
  · rw [hpb] at h
    simp only [Except.error.injEq] at h
    subst h
    exact ⟨rfl, rfl, rfl, rfl, rfl⟩
  · rw [hpb] at h
    exact absurd h (by simp)

theorem batch_insert_mono (dbOk : Bool) (store : Store) (rows : List Row)
    (store2 : Store) (h : batch_insert_or_update dbOk store rows = .ok store2) :
    ∀ x, storeHasName store x → storeHasName store2 x := by
  unfold batch_insert_or_update at h
  split at h
  · simp only [Except.ok.injEq] at h
    subst h
    exact fun x hx => hx
  · split at h
    · simp only [Except.ok.injEq] at h
      subst h
      exact fun x hx => upsertRows_mono _ _ _ hx
    · exact absurd h (by simp)

theorem process_batch_ok_store_mono (fetch : String → FetchRes)
    (analyze : List FileD → Entry → Analysis) (use_ai : Bool)
    (remote : Except Unit (List (Option CatResult))) (dbOk : Bool)
    (batch : List Repo) (processed : Finset String) (store : Store) (out : PBOut)
    (h : process_batch fetch analyze use_ai remote dbOk batch processed store
        = .ok out) :
    ∀ x, storeHasName store x → storeHasName out.store x := by
  simp only [process_batch] at h
  set R := ((if use_ai then
      ai_categorize_batch true remote
        ((batch.map (fetch_repo_files fetch)).map (analyzeStep analyze))
    else
      ((batch.map (fetch_repo_files fetch)).map (analyzeStep analyze)).map
        (fun e => Row.entry (applyCat e (heuristic_categorize e)))).map
      statusUpdate) with hR
  rcases hdbeq : batch_insert_or_update dbOk store R with u | store2
  · rw [hdbeq] at h
    exact absurd h (by simp)
  · rw [hdbeq] at h
    rcases hmark : markProcessed R processed 0 with u | pr
    · rw [hmark] at h
      exact absurd h (by simp)
    · rcases pr with ⟨processed2, n⟩
      rw [hmark] at h
      simp only [Except.ok.injEq] at h
      subst h
      exact batch_insert_mono dbOk store R store2 hdbeq

theorem runProcessBatch_ok_inv (o : Oracles) (batch : List Repo) (st : RunSt)
    (n : Nat) (st2 : RunSt) (h : runProcessBatch o batch st = .ok (n, st2)) :
    st2.processed = st.processed ∪ (batch.map Repo.full_name).toFinset ∧
    n = ((batch.map Repo.full_name).toFinset \ st.processed).card ∧
    st2.accepted = st.accepted ∧ st2.batches = st.batches ++ [batch] ∧
    st2.pb_results = st.pb_results ++ [true] ∧
    (∀ x, storeHasName st.store x → storeHasName st2.store x) ∧
    st2.flag_checks = st.flag_checks ∧ st2.mid_saves = st.mid_saves ∧
    st2.total_new = st.total_new := by
  unfold runProcessBatch at h
  simp only [] at h
  rcases hpb : process_batch o.fetch o.analyze o.use_ai (o.remote st.batches.length)
      (o.dbOk st.batches.length) batch st.processed st.store with u | out
  · rw [hpb] at h
    exact absurd h (by simp)
  · rw [hpb] at h
    simp only [Except.ok.injEq, Prod.mk.injEq] at h
    obtain ⟨hn, hst⟩ := h
    subst hst
    obtain ⟨hp, hc⟩ := process_batch_ok_inv _ _ _ _ _ _ _ _ _ hpb
    refine ⟨hp, ?_, rfl, rfl, rfl, ?_, rfl, rfl, rfl⟩
    · rw [← hn, hc]
    · exact process_batch_ok_store_mono _ _ _ _ _ _ _ _ _ hpb

/-- The in-memory processed set only grows across the candidate loop. -/
theorem candLoop_mono (o : Oracles) (bs : Nat) (sp qu : List (String × Nat))
    (qi : Nat) (cands : List Repo) (batch : List Repo) (st : RunSt) :
    st.processed ⊆ (candOut (candLoop o bs sp qu qi cands batch st)).processed := by
  induction cands generalizing batch st with
  | nil => exact subset_rfl
  | cons c rest ih =>
    simp only [candLoop]
    by_cases hflag : (checkFlag o st).1 = true
    · simp only [hflag, if_true]
      exact subset_rfl
    · simp only [hflag, Bool.false_eq_true, if_false]
      by_cases hmem : c.full_name ∈ (checkFlag o st).2.processed
      · simp only [hmem, if_true]
        exact ih batch ((checkFlag o st).2)
      · simp only [hmem, if_false]
        by_cases hsize : bs ≤ (batch ++ [c]).length
        · simp only [hsize, if_true]
          rcases hpb : runProcessBatch o (batch ++ [c])
              { (checkFlag o st).2 with
                accepted := (checkFlag o st).2.accepted ++ [c] } with st3 | pr
          · simp only [candOut]
            exact le_of_eq (runProcessBatch_err_eq _ _ _ _ hpb).1.symm
          · rcases pr with ⟨n, st3⟩
            refine Finset.Subset.trans ?_ (ih [] _)
            exact le_of_le_of_eq (Finset.subset_union_left)
              (runProcessBatch_ok_inv _ _ _ _ _ hpb).1.symm
        · simp only [hsize, if_false]
          exact ih (batch ++ [c])
            { (checkFlag o st).2 with
              accepted := (checkFlag o st).2.accepted ++ [c] }

/-- The in-memory processed set only grows across the query loop. -/
theorem queryLoop_mono (o : Oracles) (bs mp : Nat) (sp qu : List (String × Nat))
    (queries : List String) (qi : Nat) (st : RunSt) :
    st.processed ⊆ (loopOut (queryLoop o bs mp sp qu queries qi st)).processed := by
  induction queries generalizing qi st with
  | nil => exact subset_rfl
  | cons q rest ih =>
    simp only [queryLoop]
    by_cases hflag : (checkFlag o st).1 = true
    · simp only [hflag, if_true]
      exact subset_rfl
    · simp only [hflag, Bool.false_eq_true, if_false]
      rcases hcl : candLoop o bs sp qu qi
          (discover_repos_stream o.search [q] mp (startPage sp q)) []
          (checkFlag o st).2 with st2 | pr
      · have hmono := candLoop_mono o bs sp qu qi
          (discover_repos_stream o.search [q] mp (startPage sp q)) [] (checkFlag o st).2
        rw [hcl] at hmono
        exact hmono
      · rcases pr with ⟨batch, st2⟩
        have hmono := candLoop_mono o bs sp qu qi
          (discover_repos_stream o.search [q] mp (startPage sp q)) [] (checkFlag o st).2
        rw [hcl] at hmono
        simp only [candOut] at hmono
        by_cases hempty : batch.isEmpty
        · simp only [hempty, if_true]
          exact Finset.Subset.trans hmono (ih (qi + 1) st2)
        · simp only [hempty, Bool.false_eq_true, if_false]
          rcases hpb : runProcessBatch o batch st2 with st3 | pr2
          · simp only [loopOut]
            exact Finset.Subset.trans hmono
              (le_of_eq (runProcessBatch_err_eq _ _ _ _ hpb).1.symm)
          · rcases pr2 with ⟨n, st3⟩
            refine Finset.Subset.trans hmono (Finset.Subset.trans ?_ (ih (qi + 1) _))
            exact le_of_le_of_eq (Finset.subset_union_left)
              (runProcessBatch_ok_inv _ _ _ _ _ hpb).1.symm

/-- A run always ends in the state of its query loop, and the final
checkpoint save serializes exactly that state. -/
theorem run_st_eq (o : Oracles) (batch_size max_repos : Nat)
    (loaded : CheckpointState) (queries : List String) :
    (run o batch_size max_repos loaded queries).st
        = loopOut (queryLoop o batch_size (max_repos / queries.length)
            loaded.start_pages loaded.queries_used (queries.drop loaded.query_idx)
            loaded.query_idx
            { processed := loaded.processed, total_new := 0, store := [],
              mid_saves := [], batches := [], pb_results := [], accepted := [],
              flag_checks := 0 }) ∧
    (run o batch_size max_repos loaded queries).final_save
        = CheckpointManager.save (run o batch_size max_repos loaded queries).st.processed
            (run o batch_size max_repos loaded queries).st.total_new
            loaded.queries_used loaded.start_pages queries.length := by
  unfold run
  simp only []
  rcases hq : queryLoop o batch_size (max_repos / queries.length)
      loaded.start_pages loaded.queries_used (queries.drop loaded.query_idx)
      loaded.query_idx
      { processed := loaded.processed, total_new := 0, store := [],
        mid_saves := [], batches := [], pb_results := [], accepted := [],
        flag_checks := 0 } with st | st <;> exact ⟨rfl, rfl⟩

/-! ## C10 — the processed set only grows -/

/-- C10: `_process_batch` never removes identifiers — when it returns, the
new processed set is exactly the old set united with the batch's
identifiers (so the set only grows, also across a whole run), and the
returned integer is exactly the number of distinct identifiers of the
persisted batch that were not in the set before the call. -/
theorem claim_C10_processed_monotone :
    (∀ (fetch : String → FetchRes) (analyze : List FileD → Entry → Analysis)
      (use_ai : Bool) (remote : Except Unit (List (Option CatResult))) (dbOk : Bool)
      (batch : List Repo) (processed : Finset String) (store : Store) (out : PBOut),
      process_batch fetch analyze use_ai remote dbOk batch processed store = .ok out →
        processed ⊆ out.processed ∧
        out.processed = processed ∪ (batch.map Repo.full_name).toFinset ∧
        out.new_count = ((batch.map Repo.full_name).toFinset \ processed).card) ∧
    (∀ (o : Oracles) (batch_size max_repos : Nat) (loaded : CheckpointState)
      (queries : List String),
      loaded.processed ⊆ (run o batch_size max_repos loaded queries).st.processed) := by
  constructor
  · intro fetch analyze use_ai remote dbOk batch processed store out h
    obtain ⟨hp, hc⟩ := process_batch_ok_inv _ _ _ _ _ _ _ _ _ h
    refine ⟨?_, hp, hc⟩
    rw [hp]
    exact Finset.subset_union_left
  · intro o batch_size max_repos loaded queries
    rw [(run_st_eq o batch_size max_repos loaded queries).1]
    exact queryLoop_mono o batch_size (max_repos / queries.length)
      loaded.start_pages loaded.queries_used (queries.drop loaded.query_idx)
      loaded.query_idx
      { processed := loaded.processed, total_new := 0, store := [],
        mid_saves := [], batches := [], pb_results := [], accepted := [],
        flag_checks := 0 }

/-- Witness for C10's `_process_batch` part at a concrete one-item batch. -/
theorem claim_C10_witness :
    ∃ out, process_batch (fun _ => FetchRes.notList) analyzeTriv false
        (Except.ok []) true [repoXY] ∅ [] = .ok out ∧
      ((∅ : Finset String) ⊆ out.processed ∧
        out.processed = ∅ ∪ ([repoXY].map Repo.full_name).toFinset ∧
        out.new_count = (([repoXY].map Repo.full_name).toFinset \ ∅).card) := by
  obtain ⟨out, hok, _⟩ := process_batch_ok_strong (fun _ => FetchRes.notList)
    analyzeTriv false (Except.ok []) (Or.inl rfl) [repoXY] ∅ []
  exact ⟨out, hok,
    claim_C10_processed_monotone.1 _ _ _ _ _ _ _ _ _ hok⟩

/-! ## C1 — skip-if-processed -/

/-- An identifier already in the processed set never enters any batch of the
candidate loop: not the accumulating one, and not any batch handed to
`_process_batch`. -/
theorem candLoop_skip (o : Oracles) (bs : Nat) (sp qu : List (String × Nat))
    (qi : Nat) (id : String) (cands batch : List Repo) (st : RunSt)
    (hid : id ∈ st.processed)
    (hbatches : ∀ b ∈ st.batches, id ∉ b.map Repo.full_name)
    (hbatch : id ∉ batch.map Repo.full_name) :
    (∀ b ∈ (candOut (candLoop o bs sp qu qi cands batch st)).batches,
        id ∉ b.map Repo.full_name) ∧
    ∀ b2 st2, candLoop o bs sp qu qi cands batch st = .ok (b2, st2) →
      id ∉ b2.map Repo.full_name := by
  induction cands generalizing batch st with
  | nil =>
    refine ⟨hbatches, ?_⟩
    intro b2 st2 h
    simp only [candLoop, Except.ok.injEq, Prod.mk.injEq] at h
    rw [← h.1]
    exact hbatch
  | cons c rest ih =>
    simp only [candLoop]
    by_cases hflag : (checkFlag o st).1 = true
    · simp only [hflag, if_true]
      refine ⟨hbatches, ?_⟩
      intro b2 st2 h
      simp only [Except.ok.injEq, Prod.mk.injEq] at h
      rw [← h.1]
      exact hbatch
    · simp only [hflag, Bool.false_eq_true, if_false]
      by_cases hmem : c.full_name ∈ (checkFlag o st).2.processed
      · simp only [hmem, if_true]
        exact ih batch ((checkFlag o st).2) hid hbatches hbatch
      · simp only [hmem, if_false]
        have hc : c.full_name ≠ id := fun heq => hmem (heq ▸ hid)
        have hbatch2 : id ∉ (batch ++ [c]).map Repo.full_name := by
          simp only [List.map_append, List.map_cons, List.map_nil, List.mem_append,
            List.mem_cons, List.not_mem_nil, or_false]
          rintro (h | h)
          · exact hbatch h
          · exact hc h.symm
        by_cases hsize : bs ≤ (batch ++ [c]).length
        · simp only [hsize, if_true]
          rcases hpb : runProcessBatch o (batch ++ [c])
              { (checkFlag o st).2 with
                accepted := (checkFlag o st).2.accepted ++ [c] } with st3 | pr
          · obtain ⟨hp3, hs3, ha3, hb3, hr3⟩ := runProcessBatch_err_eq _ _ _ _ hpb
            refine ⟨?_, ?_⟩
            · simp only [candOut]
              intro b hb
              rw [hb3] at hb
              rcases List.mem_append.mp hb with h | h
              · exact hbatches b h
              · rw [List.mem_singleton.mp h]
                exact hbatch2
            · intro b2 st4 h
              simp at h
          · rcases pr with ⟨n, st3⟩
            obtain ⟨hp3, hn3, ha3, hb3, hr3, hsn3, hf3, hm3, ht3⟩ :=
              runProcessBatch_ok_inv _ _ _ _ _ hpb
            refine ih [] _ ?_ ?_ ?_
            · show id ∈ st3.processed
              rw [hp3]
              exact Finset.mem_union_left _ hid
            · show ∀ b ∈ st3.batches, id ∉ b.map Repo.full_name
              intro b hb
              rw [hb3] at hb
              rcases List.mem_append.mp hb with h | h
              · exact hbatches b h
              · rw [List.mem_singleton.mp h]
                exact hbatch2
            · simp
        · simp only [hsize, if_false]
          exact ih (batch ++ [c])
            { (checkFlag o st).2 with
              accepted := (checkFlag o st).2.accepted ++ [c] } hid hbatches hbatch2

/-- An identifier already in the processed set never enters any batch of the
whole query loop. -/
theorem queryLoop_skip (o : Oracles) (bs mp : Nat) (sp qu : List (String × Nat))
    (queries : List String) (qi : Nat) (st : RunSt) (id : String)
    (hid : id ∈ st.processed)
    (hbatches : ∀ b ∈ st.batches, id ∉ b.map Repo.full_name) :
    ∀ b ∈ (loopOut (queryLoop o bs mp sp qu queries qi st)).batches,
      id ∉ b.map Repo.full_name := by
  induction queries generalizing qi st with
  | nil => exact hbatches
  | cons q rest ih =>
    simp only [queryLoop]
    by_cases hflag : (checkFlag o st).1 = true
    · simp only [hflag, if_true]
      exact hbatches
    · simp only [hflag, Bool.false_eq_true, if_false]
      have hskip := candLoop_skip o bs sp qu qi id
        (discover_repos_stream o.search [q] mp (startPage sp q)) [] ((checkFlag o st).2)
        hid hbatches (by simp)
      have hmono := candLoop_mono o bs sp qu qi
        (discover_repos_stream o.search [q] mp (startPage sp q)) [] ((checkFlag o st).2)
      rcases hcl : candLoop o bs sp qu qi
          (discover_repos_stream o.search [q] mp (startPage sp q)) []
          ((checkFlag o st).2) with st2 | pr
      · rw [hcl] at hskip
        exact hskip.1
      · rcases pr with ⟨batch, st2⟩
        rw [hcl] at hskip hmono
        simp only [candOut] at hskip hmono
        have hbatchnames := hskip.2 batch st2 rfl
        by_cases hempty : batch.isEmpty
        · simp only [hempty, if_true]
          exact ih (qi + 1) st2 (hmono hid) hskip.1
        · simp only [hempty, Bool.false_eq_true, if_false]
          rcases hpb : runProcessBatch o batch st2 with st3 | pr2
          · obtain ⟨hp3, hs3, ha3, hb3, hr3⟩ := runProcessBatch_err_eq _ _ _ _ hpb
            simp only [loopOut]
            intro b hb
            rw [hb3] at hb
            rcases List.mem_append.mp hb with h | h
            · exact hskip.1 b h
            · rw [List.mem_singleton.mp h]
              exact hbatchnames
          · rcases pr2 with ⟨n, st3⟩
            obtain ⟨hp3, hn3, ha3, hb3, hr3, hsn3, hf3, hm3, ht3⟩ :=
              runProcessBatch_ok_inv _ _ _ _ _ hpb
            refine ih (qi + 1) _ ?_ ?_
            · show id ∈ st3.processed
              rw [hp3]
              exact Finset.mem_union_left _ (hmono hid)
            · show ∀ b ∈ st3.batches, id ∉ b.map Repo.full_name
              intro b hb
              rw [hb3] at hb
              rcases List.mem_append.mp hb with h | h
              · exact hskip.1 b h
              · rw [List.mem_singleton.mp h]
                exact hbatchnames

/-- C1: when a run starts from a loaded checkpoint whose processed set
contains an identifier, no batch handed to `_process_batch` ever contains a
candidate with that identifier (it is skipped before enrichment and
classification), and the final checkpoint's serialized processed list still
contains exactly one entry for it. -/
theorem claim_C1_skip_if_processed (o : Oracles) (batch_size max_repos : Nat)
    (loaded : CheckpointState) (queries : List String) (id : String)
    (hid : id ∈ loaded.processed) :
    (∀ b ∈ (run o batch_size max_repos loaded queries).st.batches,
        id ∉ b.map Repo.full_name) ∧
    (run o batch_size max_repos loaded queries).final_save.processed.count id = 1 := by
  have hrs := run_st_eq o batch_size max_repos loaded queries
  constructor
  · rw [hrs.1]
    exact queryLoop_skip o batch_size (max_repos / queries.length)
      loaded.start_pages loaded.queries_used (queries.drop loaded.query_idx)
      loaded.query_idx _ id hid (by simp)
  · have hmem : id ∈ (run o batch_size max_repos loaded queries).st.processed := by
      rw [hrs.1]
      exact queryLoop_mono o batch_size (max_repos / queries.length)
        loaded.start_pages loaded.queries_used (queries.drop loaded.query_idx)
        loaded.query_idx _ hid
    rw [hrs.2]
    show ((run o batch_size max_repos loaded queries).st.processed.sort (· ≤ ·)).count id = 1
    exact List.count_eq_one_of_mem (Finset.sort_nodup _ _) (Finset.mem_sort _ |>.mpr hmem)

/-- Concrete oracles for the C1 witness: discovery re-yields `x/y`. -/
def oraclesC1 : Oracles :=
  { search := fun _ p => if p = 1 then [repoXY, repoAB] else []
    fetch := fun _ => FetchRes.notList
    analyze := analyzeTriv
    use_ai := false
    remote := fun _ => Except.ok []
    dbOk := fun _ => true
    shutdown_at := none }

/-- A loaded checkpoint state with `processed = {"x/y"}`. -/
def loadedC1 : CheckpointState := ⟨{"x/y"}, [], 0, []⟩

/-- Witness for C1 at the spec's concrete scenario. -/
theorem claim_C1_witness :
    "x/y" ∈ loadedC1.processed ∧
    ((∀ b ∈ (run oraclesC1 1 10 loadedC1 ["q"]).st.batches,
        "x/y" ∉ b.map Repo.full_name) ∧
      (run oraclesC1 1 10 loadedC1 ["q"]).final_save.processed.count "x/y" = 1) :=
  ⟨by decide,
    claim_C1_skip_if_processed oraclesC1 1 10 loadedC1 ["q"] "x/y" (by decide)⟩

/-! ## C4 — what happens when persisting a batch fails -/

/-- Through the candidate loop, every `_process_batch` call before the last
one succeeded; a normal exit has an all-success trace, an exceptional exit
has exactly one failure, at the very end of the trace. -/
theorem candLoop_pb (o : Oracles) (bs : Nat) (sp qu : List (String × Nat))
    (qi : Nat) (cands batch : List Repo) (st : RunSt)
    (hP : st.pb_results.all (· = true) = true) :
    (∀ b2 st2, candLoop o bs sp qu qi cands batch st = .ok (b2, st2) →
      st2.pb_results.all (· = true) = true) ∧
    (∀ st2, candLoop o bs sp qu qi cands batch st = .error st2 →
      st2.pb_results.dropLast.all (· = true) = true ∧
      st2.pb_results.getLast? = some false) := by
  induction cands generalizing batch st with
  | nil =>
    constructor
    · intro b2 st2 h
      simp only [candLoop, Except.ok.injEq, Prod.mk.injEq] at h
      rw [← h.2]
      exact hP
    · intro st2 h
      simp [candLoop] at h
  | cons c rest ih =>
    simp only [candLoop]
    by_cases hflag : (checkFlag o st).1 = true
    · simp only [hflag, if_true]
      constructor
      · intro b2 st2 h
        simp only [Except.ok.injEq, Prod.mk.injEq] at h
        rw [← h.2]
        exact hP
      · intro st2 h
        simp at h
    · simp only [hflag, Bool.false_eq_true, if_false]
      by_cases hmem : c.full_name ∈ (checkFlag o st).2.processed
      · simp only [hmem, if_true]
        exact ih batch ((checkFlag o st).2) hP
      · simp only [hmem, if_false]
        by_cases hsize : bs ≤ (batch ++ [c]).length
        · simp only [hsize, if_true]
          rcases hpb : runProcessBatch o (batch ++ [c])
              { (checkFlag o st).2 with
                accepted := (checkFlag o st).2.accepted ++ [c] } with st3 | pr
          · obtain ⟨hp3, hs3, ha3, hb3, hr3⟩ := runProcessBatch_err_eq _ _ _ _ hpb
            constructor
            · intro b2 st2 h
              simp at h
            · intro st2 h
              simp only [Except.error.injEq] at h
              subst h
              rw [hr3]
              refine ⟨?_, List.getLast?_concat _⟩
              rw [List.dropLast_concat]
              exact hP
          · rcases pr with ⟨n, st3⟩
            obtain ⟨hp3, hn3, ha3, hb3, hr3, hsn3, hf3, hm3, ht3⟩ :=
              runProcessBatch_ok_inv _ _ _ _ _ hpb
            refine ih [] _ ?_
            show st3.pb_results.all (· = true) = true
            rw [hr3, List.all_append, Bool.and_eq_true]
            exact ⟨hP, by decide⟩
        · simp only [hsize, if_false]
          exact ih (batch ++ [c])
            { (checkFlag o st).2 with
              accepted := (checkFlag o st).2.accepted ++ [c] } hP

/-- The same trace property across the whole query loop. -/
theorem queryLoop_pb (o : Oracles) (bs mp : Nat) (sp qu : List (String × Nat))
    (queries : List String) (qi : Nat) (st : RunSt)
    (hP : st.pb_results.all (· = true) = true) :
    (∀ st2, queryLoop o bs mp sp qu queries qi st = .ok st2 →
      st2.pb_results.all (· = true) = true) ∧
    (∀ st2, queryLoop o bs mp sp qu queries qi st = .error st2 →
      st2.pb_results.dropLast.all (· = true) = true ∧
      st2.pb_results.getLast? = some false) := by
  induction queries generalizing qi st with
  | nil =>
    constructor
    · intro st2 h
      simp only [queryLoop, Except.ok.injEq] at h
      rw [← h]
      exact hP
    · intro st2 h
      simp [queryLoop] at h
  | cons q rest ih =>
    simp only [queryLoop]
    by_cases hflag : (checkFlag o st).1 = true
    · simp only [hflag, if_true]
      constructor
      · intro st2 h
        simp only [Except.ok.injEq] at h
        rw [← h]
        exact hP
      · intro st2 h
        simp at h
    · simp only [hflag, Bool.false_eq_true, if_false]
      have hcand := candLoop_pb o bs sp qu qi
        (discover_repos_stream o.search [q] mp (startPage sp q)) [] ((checkFlag o st).2) hP
      rcases hcl : candLoop o bs sp qu qi
          (discover_repos_stream o.search [q] mp (startPage sp q)) []
          ((checkFlag o st).2) with st2 | pr
      · rw [hcl] at hcand
        constructor
        · intro st3 h
          simp at h
        · intro st3 h
          simp only [Except.error.injEq] at h
          subst h
          exact hcand.2 _ rfl
      · rcases pr with ⟨batch, st2⟩
        rw [hcl] at hcand
        have hP2 : st2.pb_results.all (· = true) = true := hcand.1 batch st2 rfl
        by_cases hempty : batch.isEmpty
        · simp only [hempty, if_true]
          exact ih (qi + 1) st2 hP2
        · simp only [hempty, Bool.false_eq_true, if_false]
          rcases hpb : runProcessBatch o batch st2 with st3 | pr2
          · obtain ⟨hp3, hs3, ha3, hb3, hr3⟩ := runProcessBatch_err_eq _ _ _ _ hpb
            constructor
            · intro st4 h
              simp at h
            · intro st4 h
              simp only [Except.error.injEq] at h
              subst h
              rw [hr3]
              refine ⟨?_, List.getLast?_concat _⟩
              rw [List.dropLast_concat]
              exact hP2
          · rcases pr2 with ⟨n, st3⟩
            obtain ⟨hp3, hn3, ha3, hb3, hr3, hsn3, hf3, hm3, ht3⟩ :=
              runProcessBatch_ok_inv _ _ _ _ _ hpb
            refine ih (qi + 1) _ ?_
            show st3.pb_results.all (· = true) = true
            rw [hr3, List.all_append, Bool.and_eq_true]
            exact ⟨hP2, by decide⟩

/-- A run either completed (`aborted = false`, its query loop returned
normally) or an exception was caught (`aborted = true`, the query loop
raised). -/
theorem run_cases (o : Oracles) (batch_size max_repos : Nat)
    (loaded : CheckpointState) (queries : List String) :
    ((run o batch_size max_repos loaded queries).aborted = false ∧
      queryLoop o batch_size (max_repos / queries.length) loaded.start_pages
        loaded.queries_used (queries.drop loaded.query_idx) loaded.query_idx
        { processed := loaded.processed, total_new := 0, store := [], mid_saves := [],
          batches := [], pb_results := [], accepted := [], flag_checks := 0 }
        = .ok (run o batch_size max_repos loaded queries).st) ∨
    ((run o batch_size max_repos loaded queries).aborted = true ∧
      queryLoop o batch_size (max_repos / queries.length) loaded.start_pages
        loaded.queries_used (queries.drop loaded.query_idx) loaded.query_idx
        { processed := loaded.processed, total_new := 0, store := [], mid_saves := [],
          batches := [], pb_results := [], accepted := [], flag_checks := 0 }
        = .error (run o batch_size max_repos loaded queries).st) := by
  unfold run
  simp only []
  rcases hq : queryLoop o batch_size (max_repos / queries.length) loaded.start_pages
      loaded.queries_used (queries.drop loaded.query_idx) loaded.query_idx
      { processed := loaded.processed, total_new := 0, store := [], mid_saves := [],
        batches := [], pb_results := [], accepted := [], flag_checks := 0 }
      with st | st
  · exact Or.inr ⟨rfl, rfl⟩
  · exact Or.inl ⟨rfl, rfl⟩

/-- C4 (amended): an exception while persisting a batch is caught by `run`'s
top-level handler and the `finally` block still saves a checkpoint of the
in-memory state — but the outer loop does *not* proceed: every
`_process_batch` call except possibly the last succeeded (nothing runs after
a failure), a run that completed had no failed call, and an aborted run's
last call is the failed one. -/
theorem claim_C4_failure_aborts_run :
    (∀ (o : Oracles) (batch_size max_repos : Nat) (loaded : CheckpointState)
      (queries : List String),
      (run o batch_size max_repos loaded queries).final_save
        = CheckpointManager.save
            (run o batch_size max_repos loaded queries).st.processed
            (run o batch_size max_repos loaded queries).st.total_new
            loaded.queries_used loaded.start_pages queries.length) ∧
    (∀ (o : Oracles) (batch_size max_repos : Nat) (loaded : CheckpointState)
      (queries : List String),
      ((run o batch_size max_repos loaded queries).st.pb_results.dropLast.all
        (· = true)) = true) ∧
    (∀ (o : Oracles) (batch_size max_repos : Nat) (loaded : CheckpointState)
      (queries : List String),
      (run o batch_size max_repos loaded queries).aborted = false →
      ((run o batch_size max_repos loaded queries).st.pb_results.all
        (· = true)) = true) ∧
    (∀ (o : Oracles) (batch_size max_repos : Nat) (loaded : CheckpointState)
      (queries : List String),
      (run o batch_size max_repos loaded queries).aborted = true →
      (run o batch_size max_repos loaded queries).st.pb_results.getLast?
        = some false) := by
  refine ⟨?_, ?_, ?_, ?_⟩
  · intro o batch_size max_repos loaded queries
    exact (run_st_eq o batch_size max_repos loaded queries).2
  · intro o batch_size max_repos loaded queries
    have hpb := queryLoop_pb o batch_size (max_repos / queries.length)
      loaded.start_pages loaded.queries_used (queries.drop loaded.query_idx)
      loaded.query_idx
      { processed := loaded.processed, total_new := 0, store := [], mid_saves := [],
        batches := [], pb_results := [], accepted := [], flag_checks := 0 } rfl
    rcases run_cases o batch_size max_repos loaded queries with ⟨_, hq⟩ | ⟨_, hq⟩
    · have hall := hpb.1 _ hq
      rw [List.all_eq_true] at hall ⊢
      intro x hx
      exact hall x (List.Sublist.subset (List.dropLast_sublist _) hx)
    · exact (hpb.2 _ hq).1
  · intro o batch_size max_repos loaded queries habort
    have hpb := queryLoop_pb o batch_size (max_repos / queries.length)
      loaded.start_pages loaded.queries_used (queries.drop loaded.query_idx)
      loaded.query_idx
      { processed := loaded.processed, total_new := 0, store := [], mid_saves := [],
        batches := [], pb_results := [], accepted := [], flag_checks := 0 } rfl
    rcases run_cases o batch_size max_repos loaded queries with ⟨_, hq⟩ | ⟨hab, _⟩
    · exact hpb.1 _ hq
    · rw [habort] at hab
      exact absurd hab (by simp)
  · intro o batch_size max_repos loaded queries habort
    have hpb := queryLoop_pb o batch_size (max_repos / queries.length)
      loaded.start_pages loaded.queries_used (queries.drop loaded.query_idx)
      loaded.query_idx
      { processed := loaded.processed, total_new := 0, store := [], mid_saves := [],
        batches := [], pb_results := [], accepted := [], flag_checks := 0 } rfl
    rcases run_cases o batch_size max_repos loaded queries with ⟨hab, _⟩ | ⟨_, hq⟩
    · rw [habort] at hab
      exact absurd hab (by simp)
    · exact (hpb.2 _ hq).2

/-- Two queries, one repo each. -/
def searchC4 : String → Nat → List Repo := fun q p =>
  if q == "q1" then (if p == 1 then [repoR1] else [])
  else if q == "q2" then (if p == 1 then [repoR2] else []) else []

/-- Oracles whose very first database write fails. -/
def oraclesC4 : Oracles :=
  { search := searchC4
    fetch := fun _ => FetchRes.notList
    analyze := analyzeTriv
    use_ai := false
    remote := fun _ => Except.ok []
    dbOk := fun i => i != 0
    shutdown_at := none }

/-- A fresh (empty) checkpoint state. -/
def freshState : CheckpointState := ⟨∅, [], 0, []⟩

/-- Full evaluation of the failing-store run: the first upsert raises, the
exception aborts the loop, nothing is stored and nothing marked processed. -/
theorem runC4_eq : run oraclesC4 1 2 freshState ["q1", "q2"]
    = ⟨{ processed := ∅, total_new := 0, store := [], mid_saves := [],
         batches := [[repoR1]], pb_results := [false], accepted := [repoR1],
         flag_checks := 2 },
       CheckpointManager.save ∅ 0 [] [] 2, true⟩ := by
  have hp : pageLoop oraclesC4.search "q1" 1 1 0 = ([repoR1], 1) := by
    have h := pageLoop_cap_stop oraclesC4.search "q1" 1 1 0 (by decide) (by decide)
    simpa using h
  have hdisc : discover_repos_stream oraclesC4.search ["q1"] 1 (startPage [] "q1")
      = [repoR1] := by
    show (queryFold oraclesC4.search 1 (startPage [] "q1") ["q1"] 0).1 = [repoR1]
    rw [show startPage ([] : List (String × Nat)) "q1" = 1 from rfl]
    simp [queryFold, hp]
  have hql : queryLoop oraclesC4 1 1 [] [] ["q1", "q2"] 0
      { processed := ∅, total_new := 0, store := [], mid_saves := [],
        batches := [], pb_results := [], accepted := [], flag_checks := 0 }
      = .error
      { processed := ∅, total_new := 0, store := [], mid_saves := [],
        batches := [[repoR1]], pb_results := [false], accepted := [repoR1],
        flag_checks := 2 } := by
    simp only [queryLoop]
    rw [if_neg (by decide : ¬((checkFlag oraclesC4
      { processed := ∅, total_new := 0, store := [], mid_saves := [],
        batches := [], pb_results := [], accepted := [], flag_checks := 0 }).1 = true))]
    rw [hdisc]
    rfl
  have hql2 : queryLoop oraclesC4 1 (2 / (["q1", "q2"] : List String).length)
      freshState.start_pages freshState.queries_used
      (List.drop freshState.query_idx ["q1", "q2"]) freshState.query_idx
      { processed := freshState.processed, total_new := 0, store := [],
        mid_saves := [], batches := [], pb_results := [], accepted := [],
        flag_checks := 0 }
      = .error
      { processed := ∅, total_new := 0, store := [], mid_saves := [],
        batches := [[repoR1]], pb_results := [false], accepted := [repoR1],
        flag_checks := 2 } := hql
  unfold run
  simp only []
  rw [hql2]
  rfl

/-- C4 counterexample: with two queries and a store whose first upsert
raises, the run does *not* proceed to the next batch or the remaining
query — it is aborted by the run-level handler: the only `_process_batch`
call is the failed one, nothing was stored, the second query's candidate
`o/r2` never reaches a batch, and the in-memory processed set is still
empty.  This refutes "the Pipeline's outer loop proceeds to the next batch
and the remaining queries". -/
theorem claim_C4_counterexample :
    (run oraclesC4 1 2 freshState ["q1", "q2"]).aborted = true ∧
    (run oraclesC4 1 2 freshState ["q1", "q2"]).st.batches = [[repoR1]] ∧
    (run oraclesC4 1 2 freshState ["q1", "q2"]).st.pb_results = [false] ∧
    (run oraclesC4 1 2 freshState ["q1", "q2"]).st.store = [] ∧
    (run oraclesC4 1 2 freshState ["q1", "q2"]).st.processed = ∅ := by
  rw [runC4_eq]
  exact ⟨rfl, rfl, rfl, rfl, rfl⟩

/-- Witness for C4's hypothesis-bearing conjuncts: a trivial completed run
(no queries) has `aborted = false` and an all-success (empty) call trace,
and the failing-store run has `aborted = true` with the failed call last. -/
theorem claim_C4_witness :
    ((run oraclesC1 1 2 ⟨∅, [], 0, []⟩ []).aborted = false ∧
      ((run oraclesC1 1 2 ⟨∅, [], 0, []⟩ []).st.pb_results.all (· = true)) = true ∧
      (run oraclesC1 1 2 ⟨∅, [], 0, []⟩ []).final_save
        = CheckpointManager.save
            (run oraclesC1 1 2 ⟨∅, [], 0, []⟩ []).st.processed
            (run oraclesC1 1 2 ⟨∅, [], 0, []⟩ []).st.total_new [] [] 0) ∧
    ((run oraclesC4 1 2 freshState ["q1", "q2"]).aborted = true ∧
      (run oraclesC4 1 2 freshState ["q1", "q2"]).st.pb_results.getLast?
        = some false) :=
  ⟨⟨rfl,
    claim_C4_failure_aborts_run.2.2.1 oraclesC1 1 2 ⟨∅, [], 0, []⟩ [] rfl,
    claim_C4_failure_aborts_run.1 oraclesC1 1 2 ⟨∅, [], 0, []⟩ []⟩,
   ⟨by rw [runC4_eq], claim_C4_failure_aborts_run.2.2.2 oraclesC4 1 2 freshState
      ["q1", "q2"] (by rw [runC4_eq])⟩⟩

/-! ## C9 — draining on shutdown -/

/-- A candidate has been fully carried through the pipeline: it sits in some
batch that was handed to `_process_batch`, the store has a record under its
identifier, and its identifier is in the in-memory processed set. -/
def persisted (st : RunSt) (c : Repo) : Prop :=
  (∃ b ∈ st.batches, c ∈ b) ∧ storeHasName st.store c.full_name ∧
  c.full_name ∈ st.processed

theorem persisted_mono (st st2 : RunSt) (c : Repo)
    (hb : ∀ b ∈ st.batches, b ∈ st2.batches)
    (hs : ∀ x, storeHasName st.store x → storeHasName st2.store x)
    (hp : st.processed ⊆ st2.processed)
    (h : persisted st c) : persisted st2 c := by
  obtain ⟨⟨b, hbm, hcb⟩, hsn, hpr⟩ := h
  exact ⟨⟨b, hb b hbm, hcb⟩, hs _ hsn, hp hpr⟩

/-- When every database write succeeds and the remote classifier never
throws, `_process_batch` always returns, and afterwards the store holds a
record for every batch member. -/
theorem runProcessBatch_good (o : Oracles)
    (Hdb : ∀ i, o.dbOk i = true)
    (Hcl : ∀ i, o.use_ai = true → ∃ rs, o.remote i = Except.ok rs)
    (batch : List Repo) (st : RunSt) :
    ∃ n st2, runProcessBatch o batch st = .ok (n, st2) ∧
      ∀ r ∈ batch, storeHasName st2.store r.full_name := by
  have hcl' : o.use_ai = false ∨ ∃ rs, o.remote st.batches.length = Except.ok rs := by
    cases hua : o.use_ai
    · exact Or.inl rfl
    · exact Or.inr (Hcl st.batches.length hua)
  obtain ⟨out, hok, _, _, _, _, _, hhas⟩ := process_batch_ok_strong o.fetch o.analyze
    o.use_ai (o.remote st.batches.length) hcl' batch st.processed st.store
  refine ⟨out.new_count,
    { st with processed := out.processed, store := out.store,
              batches := st.batches ++ [batch],
              pb_results := st.pb_results ++ [true] }, ?_, ?_⟩
  · unfold runProcessBatch
    simp only []
    rw [Hdb st.batches.length, hok]
  · intro r hr
    exact hhas r hr

/-- Under the no-failure hypotheses, the candidate loop always returns
normally, and every candidate it ever accepted is either fully persisted or
still sitting in the pending batch it hands back. -/
theorem candLoop_drain (o : Oracles)
    (Hdb : ∀ i, o.dbOk i = true)
    (Hcl : ∀ i, o.use_ai = true → ∃ rs, o.remote i = Except.ok rs)
    (bs : Nat) (sp qu : List (String × Nat)) (qi : Nat)
    (cands batch : List Repo) (st : RunSt)
    (hinv : ∀ c ∈ st.accepted, persisted st c ∨ c ∈ batch) :
    ∃ b2 st2, candLoop o bs sp qu qi cands batch st = .ok (b2, st2) ∧
      ∀ c ∈ st2.accepted, persisted st2 c ∨ c ∈ b2 := by
  induction cands generalizing batch st with
  | nil => exact ⟨batch, st, rfl, hinv⟩
  | cons c rest ih =>
    simp only [candLoop]
    by_cases hflag : (checkFlag o st).1 = true
    · simp only [hflag, if_true]
      exact ⟨batch, (checkFlag o st).2, rfl, hinv⟩
    · simp only [hflag, Bool.false_eq_true, if_false]
      by_cases hmem : c.full_name ∈ (checkFlag o st).2.processed
      · simp only [hmem, if_true]
        exact ih batch ((checkFlag o st).2) hinv
      · simp only [hmem, if_false]
        have hinv2 : ∀ x ∈ ((checkFlag o st).2.accepted ++ [c]),
            persisted st x ∨ x ∈ (batch ++ [c]) := by
          intro x hx
          rcases List.mem_append.mp hx with h | h
          · rcases hinv x h with hpers | hbatch
            · exact Or.inl hpers
            · exact Or.inr (List.mem_append_left _ hbatch)
          · exact Or.inr (List.mem_append_right _ h)
        by_cases hsize : bs ≤ (batch ++ [c]).length
        · simp only [hsize, if_true]
          obtain ⟨n, st3, hok, hhas⟩ := runProcessBatch_good o Hdb Hcl (batch ++ [c])
            { (checkFlag o st).2 with
              accepted := (checkFlag o st).2.accepted ++ [c] }
          rw [hok]
          obtain ⟨hp3, hn3, ha3, hb3, hr3, hsn3, hf3, hm3, ht3⟩ :=
            runProcessBatch_ok_inv _ _ _ _ _ hok
          have hbatchpers : ∀ x ∈ (batch ++ [c]), persisted st3 x := by
            intro x hx
            refine ⟨⟨batch ++ [c], ?_, hx⟩, hhas x hx, ?_⟩
            · rw [hb3]
              exact List.mem_append_right _ (List.mem_singleton_self _)
            · rw [hp3]
              refine Finset.mem_union_right _ ?_
              rw [List.mem_toFinset]
              exact List.mem_map_of_mem _ hx
          refine ih [] _ ?_
          intro x hx
          left
          rw [ha3] at hx
          rcases hinv2 x hx with hpers | hbatch
          · refine persisted_mono _ st3 x ?_ hsn3 ?_ hpers
            · intro b hb
              rw [hb3]
              exact List.mem_append_left _ hb
            · rw [hp3]
              exact Finset.subset_union_left
          · exact hbatchpers x hbatch
        · simp only [hsize, if_false]
          refine ih (batch ++ [c])
            { (checkFlag o st).2 with
              accepted := (checkFlag o st).2.accepted ++ [c] } ?_
          exact hinv2

/-- Under the no-failure hypotheses, the query loop returns normally — the
trailing partial batch of each query is processed before moving on — and
every accepted candidate ends fully persisted. -/
theorem queryLoop_drain (o : Oracles)
    (Hdb : ∀ i, o.dbOk i = true)
    (Hcl : ∀ i, o.use_ai = true → ∃ rs, o.remote i = Except.ok rs)
    (bs mp : Nat) (sp qu : List (String × Nat))
    (queries : List String) (qi : Nat) (st : RunSt)
    (hinv : ∀ c ∈ st.accepted, persisted st c) :
    ∃ st2, queryLoop o bs mp sp qu queries qi st = .ok st2 ∧
      ∀ c ∈ st2.accepted, persisted st2 c := by
  induction queries generalizing qi st with
  | nil => exact ⟨st, rfl, hinv⟩
  | cons q rest ih =>
    simp only [queryLoop]
    by_cases hflag : (checkFlag o st).1 = true
    · simp only [hflag, if_true]
      exact ⟨(checkFlag o st).2, rfl, hinv⟩
    · simp only [hflag, Bool.false_eq_true, if_false]
      obtain ⟨b2, st2, hcl, hinv2⟩ := candLoop_drain o Hdb Hcl bs sp qu qi
        (discover_repos_stream o.search [q] mp (startPage sp q)) [] ((checkFlag o st).2)
        (fun c hc => Or.inl (hinv c hc))
      rw [hcl]
      by_cases hempty : b2.isEmpty
      · simp only [hempty, if_true]
        refine ih (qi + 1) st2 ?_
        intro x hx
        rcases hinv2 x hx with hpers | hb
        · exact hpers
        · rw [List.isEmpty_iff.mp hempty] at hb
          simp at hb
      · simp only [hempty, Bool.false_eq_true, if_false]
        obtain ⟨n, st3, hok, hhas⟩ := runProcessBatch_good o Hdb Hcl b2 st2
        rw [hok]
        obtain ⟨hp3, hn3, ha3, hb3, hr3, hsn3, hf3, hm3, ht3⟩ :=
          runProcessBatch_ok_inv _ _ _ _ _ hok
        have hbatchpers : ∀ x ∈ b2, persisted st3 x := by
          intro x hx
          refine ⟨⟨b2, ?_, hx⟩, hhas x hx, ?_⟩
          · rw [hb3]
            exact List.mem_append_right _ (List.mem_singleton_self _)
          · rw [hp3]
            refine Finset.mem_union_right _ ?_
            rw [List.mem_toFinset]
            exact List.mem_map_of_mem _ hx
        refine ih (qi + 1) _ ?_
        intro x hx
        rw [show ({ st3 with total_new := st3.total_new + n } : RunSt).accepted
            = st3.accepted from rfl, ha3] at hx
        rcases hinv2 x hx with hpers | hb
        · refine persisted_mono _ _ x ?_ hsn3 ?_ hpers
          · intro b hb
            rw [hb3]
            exact List.mem_append_left _ hb
          · rw [hp3]
            exact Finset.subset_union_left
        · exact hbatchpers x hb

/-- With the cooperative flag already set at the very first check, the query
loop pulls nothing. -/
theorem queryLoop_shutdown_now (o : Oracles) (h0 : o.shutdown_at = some 0)
    (bs mp : Nat) (sp qu : List (String × Nat)) (queries : List String)
    (qi : Nat) (st : RunSt) :
    (loopOut (queryLoop o bs mp sp qu queries qi st)).accepted = st.accepted ∧
    (loopOut (queryLoop o bs mp sp qu queries qi st)).batches = st.batches := by
  cases queries with
  | nil => exact ⟨rfl, rfl⟩
  | cons q rest =>
    simp only [queryLoop]
    have hflag : (checkFlag o st).1 = true := by
      simp [checkFlag, h0]
    simp only [hflag, if_true]
    exact ⟨rfl, rfl⟩

/-- C9: whatever the shutdown schedule, every candidate that was accepted
into a batch (including the in-flight batch at a shutdown break) is
enriched, classified, persisted to the store, marked processed, and present
in the final checkpoint save — no data from a started batch is discarded;
and if the shutdown flag is already set at the first check, the pipeline
pulls no candidates at all.  (Hypotheses: database writes succeed and the
remote classifier does not throw — the failure modes of C4/C8.) -/
theorem claim_C9_draining (o : Oracles) (batch_size max_repos : Nat)
    (loaded : CheckpointState) (queries : List String)
    (Hdb : ∀ i, o.dbOk i = true)
    (Hcl : ∀ i, o.use_ai = true → ∃ rs, o.remote i = Except.ok rs) :
    (∀ c ∈ (run o batch_size max_repos loaded queries).st.accepted,
      (∃ b ∈ (run o batch_size max_repos loaded queries).st.batches, c ∈ b) ∧
      storeHasName (run o batch_size max_repos loaded queries).st.store c.full_name ∧
      c.full_name ∈ (run o batch_size max_repos loaded queries).final_save.processed) ∧
    (o.shutdown_at = some 0 →
      (run o batch_size max_repos loaded queries).st.accepted = [] ∧
      (run o batch_size max_repos loaded queries).st.batches = []) := by
  have hrs := run_st_eq o batch_size max_repos loaded queries
  obtain ⟨st2, hq, hpers⟩ := queryLoop_drain o Hdb Hcl batch_size
    (max_repos / queries.length) loaded.start_pages loaded.queries_used
    (queries.drop loaded.query_idx) loaded.query_idx
    { processed := loaded.processed, total_new := 0, store := [], mid_saves := [],
      batches := [], pb_results := [], accepted := [], flag_checks := 0 }
    (by intro c hc; simp at hc)
  constructor
  · intro c hc
    have hst : (run o batch_size max_repos loaded queries).st = st2 := by
      rw [hrs.1, hq]
      rfl
    rw [hst] at hc ⊢
    obtain ⟨hb, hs, hp⟩ := hpers c hc
    refine ⟨hb, hs, ?_⟩
    rw [hrs.2, hst]
    show c.full_name ∈ st2.processed.sort (· ≤ ·)
    rw [Finset.mem_sort]
    exact hp
  · intro h0
    rw [hrs.1]
    have := queryLoop_shutdown_now o h0 batch_size (max_repos / queries.length)
      loaded.start_pages loaded.queries_used (queries.drop loaded.query_idx)
      loaded.query_idx
      { processed := loaded.processed, total_new := 0, store := [], mid_saves := [],
        batches := [], pb_results := [], accepted := [], flag_checks := 0 }
    exact this

/-- Oracles for the C9 witness: shutdown fires at the third flag check, so
the run breaks out of the candidate stream with `x/y` in the in-flight
batch. -/
def oraclesC9 : Oracles :=
  { search := fun _ p => if p = 1 then [repoXY, repoAB] else []
    fetch := fun _ => FetchRes.notList
    analyze := analyzeTriv
    use_ai := false
    remote := fun _ => Except.ok []
    dbOk := fun _ => true
    shutdown_at := some 2 }

/-- Witness for C9 at concrete oracles with a mid-stream shutdown. -/
theorem claim_C9_witness :
    (∀ i, oraclesC9.dbOk i = true) ∧
    ((∀ c ∈ (run oraclesC9 10 10 freshState ["q"]).st.accepted,
        (∃ b ∈ (run oraclesC9 10 10 freshState ["q"]).st.batches, c ∈ b) ∧
        storeHasName (run oraclesC9 10 10 freshState ["q"]).st.store c.full_name ∧
        c.full_name ∈ (run oraclesC9 10 10 freshState ["q"]).final_save.processed) ∧
      (oraclesC9.shutdown_at = some 0 →
        (run oraclesC9 10 10 freshState ["q"]).st.accepted = [] ∧
        (run oraclesC9 10 10 freshState ["q"]).st.batches = [])) :=
  ⟨fun _ => rfl,
    claim_C9_draining oraclesC9 10 10 freshState ["q"] (fun _ => rfl)
      (fun i h => absurd h (by decide))⟩

end ThemeScraper
